import Mathlib

/-!
Verification of the NuVo MusicPort controller gateway against its
natural-language specification.

The development shallowly embeds the parts of the Python source that the
claims concern:

* `src/nuvo_sdk/client.py` — the MRAD client (`NuVoClient`): volume
  validation, the response-read completion test, and the lock/wire trace
  of `get_zones`;
* `src/nuvo_sdk/mcs_client_simple.py` — the MCS client
  (`SimpleMCSClient`): instance caching, reconnect, command retry, and
  the response-read completion test;
* `src/nuvo_sdk/events.py` — the `EventManager`;
* `src/nuvo_sdk/protocol.py` — the `StateChanged` / `ReportState` line
  parsers (the exact backtracking semantics of the `re.match` patterns
  used there);
* `src/nuvo_sdk/discovery.py` — the network scanner;
* `src/api/routes/zones.py` — the HTTP volume route.

I/O is modelled by oracles (which lines the device produced, whether a
socket operation failed) and by explicit wire-write traces; strings are
Lean `String`s; Python whitespace classes are modelled over the ASCII
range, which is the range the wire protocol uses.
-/

set_option linter.unusedVariables false

namespace NuVo

/-- ASCII whitespace, as recognised by Python's `str.strip` and the regex
class `\s` (the model restricts itself to the ASCII range, which is all
that appears on this wire protocol). -/
def isPySpace (c : Char) : Bool :=
  c = ' ' || c = '\t' || c = '\n' || c = '\r' || c = '\x0b' || c = '\x0c'

/-- Python `str.strip()` on a character list: drop whitespace from both ends. -/
def pyStripL (cs : List Char) : List Char :=
  ((cs.dropWhile isPySpace).reverse.dropWhile isPySpace).reverse

/-- Python `str.strip()`. -/
def pyStrip (s : String) : String :=
  ⟨pyStripL s.toList⟩

/-- Does `cs` start with `p`? -/
def startsWithL : List Char → List Char → Bool
  | [], _ => true
  | _ :: _, [] => false
  | p :: ps, c :: cs => p = c && startsWithL ps cs

/-- Does the pattern `p` occur as a contiguous substring of `cs`?
(Python's `p in s` on strings.) -/
def containsSubL (p : List Char) : List Char → Bool
  | [] => startsWithL p []
  | c :: cs => startsWithL p (c :: cs) || containsSubL p cs

/-- Python `pat in s` for strings. -/
def containsSub (s pat : String) : Bool :=
  containsSubL pat.toList s.toList

/-- Python `s.endswith(sfx)`. -/
def endsWithSub (s sfx : String) : Bool :=
  startsWithL sfx.toList.reverse s.toList.reverse

/-! ## MRAD response read (`NuVoClient._read_response`, client.py 199-248)

The listener feeds decoded, stripped lines into `_response_queue`; the
read loop pops them one at a time, appends each to `lines`, and stops
when `line.endswith(">") or line == "Ok"`.  A queue that runs dry models
the timeout break (`if lines: break`) and the overall deadline: the
lines collected so far are returned. -/

/-- `NuVoClient._read_response`, modelled over the queued response lines. -/
def mradReadResponse : List String → List String
  | [] => []
  | l :: rest =>
    if endsWithSub l ">" || l == "Ok" then [l]
    else l :: mradReadResponse rest

/-- The completion test the MRAD read loop actually applies
(client.py line 234). -/
def mradStopLine (l : String) : Bool :=
  endsWithSub l ">" || l == "Ok"

/-- Modelled from the spec: the completion markers the specification
claims for the MRAD reply read — `=Done`, bare `Ok`, or a trailing `>`
prompt (spec §4.1 item 5). -/
def specCompletionMarker (l : String) : Bool :=
  l == "Ok" || l == "=Done" || endsWithSub l ">"

/-! ## Event manager (`events.py`)

Callbacks are opaque to the manager; they are modelled as numeric
identities together with a behaviour oracle saying whether invoking a
given callback returns normally or raises. -/

/-- Outcome of invoking one subscriber callback. -/
inductive CbOutcome
  | ok
  | raises
deriving DecidableEq

/-- `EventManager`: the subscriber list (`self._subscribers`). -/
structure EventManager where
  subscribers : List Nat
deriving DecidableEq

/-- A fresh `EventManager()`. -/
def EventManager.empty : EventManager := ⟨[]⟩

/-- `EventManager.subscribe`: append unless already present (events.py 14-22). -/
def subscribe (m : EventManager) (cb : Nat) : EventManager :=
  if cb ∈ m.subscribers then m else ⟨m.subscribers ++ [cb]⟩

/-- `EventManager.unsubscribe`: remove the first occurrence if present
(events.py 24-32; Python `list.remove`). -/
def unsubscribe (m : EventManager) (cb : Nat) : EventManager :=
  if cb ∈ m.subscribers then ⟨m.subscribers.erase cb⟩ else m

/-- `EventManager.clear`. -/
def emClear (m : EventManager) : EventManager := ⟨[]⟩

/-- Run a list of callbacks in order on one event.  `catching` records
whether each invocation is wrapped in `try`/`except Exception` — in
`EventManager.notify` (events.py 34-50) it is.  Returns the callbacks
actually invoked, in order, and whether the loop ran to completion
(`false` = an exception escaped the loop). -/
def runCallbacks (beh : Nat → CbOutcome) (catching : Bool) : List Nat → List Nat × Bool
  | [] => ([], true)
  | cb :: rest =>
    match beh cb, catching with
    | .ok, _ =>
      let r := runCallbacks beh catching rest
      (cb :: r.1, r.2)
    | .raises, true =>
      -- the except-clause logs and continues with the next subscriber
      let r := runCallbacks beh catching rest
      (cb :: r.1, r.2)
    | .raises, false => ([cb], false)

/-- `EventManager.notify` for one event: every subscriber is invoked
under `try`/`except Exception`. -/
def notify (beh : Nat → CbOutcome) (m : EventManager) : List Nat × Bool :=
  runCallbacks beh true m.subscribers

/-- Subscription-management operations offered by `EventManager`. -/
inductive EMOp
  | sub (cb : Nat)
  | unsub (cb : Nat)
  | wipe
deriving DecidableEq

/-- Apply one management operation. -/
def applyEMOp (m : EventManager) : EMOp → EventManager
  | .sub cb => subscribe m cb
  | .unsub cb => unsubscribe m cb
  | .wipe => emClear m

/-- Apply a sequence of management operations to a fresh manager. -/
def runEMOps (ops : List EMOp) : EventManager :=
  ops.foldl applyEMOp EventManager.empty

/-! ## MRAD volume validation (`NuVoClient.set_volume`, client.py 471-492,
and the HTTP route `set_volume`, api/routes/zones.py 127-154) -/

/-- Error kinds the MRAD client surfaces. -/
inductive MradErr
  | connectionError
  | commandError
  | valueError
  | protocolError
deriving DecidableEq

/-- The MRAD client state visible to the volume path: the connected flag
and the cached active-zone context. -/
structure MradState where
  connected : Bool
  activeZone : Option String
deriving DecidableEq

/-- Python truthiness of the `zone_number` argument: `if zone_number:` is
false for `None` and for `0`. -/
def zoneTruthy : Option Int → Bool
  | none => false
  | some n => n != 0

/-- `NuVoClient.set_volume` (client.py 471-492).  Validation happens
before the command lock is taken and before any socket write.
`writeFails` models an `OSError` from the socket write inside
`_send_command` (client.py 191-197), which marks the client
disconnected.  Returns (raised error if any, resulting state, wire
writes). -/
def setVolume (st : MradState) (volume : Int) (zoneNumber : Option Int)
    (writeFails : Bool) : Option MradErr × MradState × List String :=
  if ¬(0 ≤ volume ∧ volume ≤ 79) then
    -- raise ValueError("Volume must be between 0 and 79")
    (some .valueError, st, [])
  else
    -- async with self._command_lock: await self._send_command(...)
    if ¬st.connected then
      (some .connectionError, st, [])
    else if writeFails then
      (some .commandError, { st with connected := false }, [])
    else if zoneTruthy zoneNumber then
      (none, st, ["Volume " ++ toString volume ++ " " ++ toString (zoneNumber.getD 0)])
    else
      (none, st, ["Volume " ++ toString volume])

/-- Result of an HTTP route handler. -/
inductive RouteResult
  | success (msg : String)
  | httpError (code : Nat) (detail : String)
deriving DecidableEq

/-- The `POST /zones/{zone_number}/volume` handler
(api/routes/zones.py 127-154): its own range check answers 422 before
the client is touched; any error out of the client becomes a 500. -/
def routeSetVolume (st : MradState) (zoneNumber : Int) (volume : Int)
    (writeFails : Bool) : RouteResult × MradState × List String :=
  if ¬(0 ≤ volume ∧ volume ≤ 79) then
    (.httpError 422 "Volume must be between 0 and 79", st, [])
  else
    match setVolume st volume (some zoneNumber) writeFails with
    | (none, st2, w) =>
      (.success ("Zone " ++ toString zoneNumber ++ " volume set to " ++ toString volume),
        st2, w)
    | (some _, st2, w) => (.httpError 500 "command failed", st2, w)

/-! ## MCS client (`mcs_client_simple.py`)

State is the `_connected` flag and the cached `_current_instance`.
Socket behaviour is driven by outcome oracles.  Wire writes are recorded
as tagged events; `wireBytes` recovers the raw line each event puts on
the socket. -/

/-- Python exception kinds relevant to the MCS retry clause. -/
inductive PyErr
  | connError
  | brokenPipe
  | osError
  | timeoutErr
  | connReset
  | connAborted
  | otherExc
deriving DecidableEq

/-- The error kinds the claim calls connection-class: reset by peer,
broken pipe, OS socket error, read timeout (and the other
connection-flavoured members of the `except` tuple). -/
def isConnectionClass : PyErr → Bool
  | .otherExc => false
  | _ => true

/-- Which error kinds the `except` clause of
`SimpleMCSClient._execute_command` (mcs_client_simple.py 252-253)
catches: the tuple ends with `Exception`, of which every listed kind is
a subclass, so every error is caught. -/
def caughtByRetryClause : PyErr → Bool := fun _ => true

/-- `SimpleMCSClient` state: `_connected` and `_current_instance`. -/
structure MCSState where
  connected : Bool
  currentInstance : Option String
deriving DecidableEq

/-- A write on the MCS socket, tagged with its provenance. -/
inductive MCSWrite
  | init (c : String)
  | setInstanceMsg (name : String)
  | command (c : String)
deriving DecidableEq

/-- The raw line a tagged write puts on the wire. -/
def wireBytes : MCSWrite → String
  | .init c => c
  | .setInstanceMsg n => "SetInstance " ++ n
  | .command c => c

/-- The init commands `SimpleMCSClient.connect` writes
(mcs_client_simple.py 98-109); event subscription is disabled. -/
def mcsInitWrites (host : String) : List MCSWrite :=
  [.init ("SetHost " ++ host), .init "SetXMLMode Lists",
   .init "SetClientType \x22Python\x22", .init "SetEncoding 65001",
   .init "SetPickListCount 100"]

/-- Where one send/read attempt of `_execute_command` fails, if it does.
`failsBefore e`: the attempt raised before the command reached the wire
(connect or write failure).  `failsAfter e`: the command was written and
then the attempt raised. -/
inductive AttemptOutcome
  | succeeds
  | failsBefore (e : PyErr)
  | failsAfter (e : PyErr)
deriving DecidableEq

/-- The error an attempt raises, if any. -/
def attemptError : AttemptOutcome → Option PyErr
  | .succeeds => none
  | .failsBefore e => some e
  | .failsAfter e => some e

/-- `SimpleMCSClient._execute_command` (mcs_client_simple.py 230-285),
run under the command lock.  First attempt: connect if not connected,
write the command, read the response.  On any caught error (and the
clause catches every `Exception`): mark disconnected, disconnect, wait,
connect fresh, replay `SetInstance <cached>` if an instance is cached,
and retry the command exactly once; an error of the retry propagates.
`o1` drives the first attempt, `o2` the retry.  Returns (state after,
propagated error if any, tagged wire writes in order). -/
def execCommand (host : String) (st : MCSState) (cmd : String)
    (retryOnError : Bool) (o1 o2 : AttemptOutcome) :
    MCSState × Option PyErr × List MCSWrite :=
  let w1 : List MCSWrite :=
    (if st.connected then [] else mcsInitWrites host) ++
      (match o1 with
       | .failsBefore _ => []
       | _ => [.command cmd])
  match attemptError o1 with
  | none => ({ st with connected := true }, none, w1)
  | some e =>
    if retryOnError then
      let restoreW : List MCSWrite :=
        match st.currentInstance with
        | some i => [.setInstanceMsg i]
        | none => []
      match o2 with
      | .succeeds =>
        ({ st with connected := true }, none,
          w1 ++ mcsInitWrites host ++ restoreW ++ [.command cmd])
      | .failsBefore e2 =>
        -- the fresh connect itself raised; connect left _connected false
        ({ st with connected := false }, some e2, w1)
      | .failsAfter e2 =>
        -- connect succeeded, restore and replay were written, the read raised
        ({ st with connected := true }, some e2,
          w1 ++ mcsInitWrites host ++ restoreW ++ [.command cmd])
    else
      ({ st with connected := false }, some e, w1)

/-- `SimpleMCSClient.set_instance` (mcs_client_simple.py 289-297): run
`SetInstance <name>`; cache the name only when the call returned without
error. -/
def setInstance (host : String) (st : MCSState) (name : String)
    (o1 o2 : AttemptOutcome) : MCSState × Option PyErr × List MCSWrite :=
  match execCommand host st ("SetInstance " ++ name) true o1 o2 with
  | (st2, none, w) => ({ st2 with currentInstance := some name }, none, w)
  | (st2, some e, w) => (st2, some e, w)

/-- `SimpleMCSClient.disconnect` (140-153). -/
def mcsDisconnect (st : MCSState) : MCSState :=
  { st with connected := false }

/-- `SimpleMCSClient.reconnect` (mcs_client_simple.py 155-180): save the
current instance, disconnect cleanly, wait, connect fresh, and if an
instance was saved replay it through `set_instance`.  `connOk` says
whether the fresh `connect` succeeded; `o1 o2` drive the inner
`set_instance`. -/
def mcsReconnect (host : String) (st : MCSState) (connOk : Bool)
    (o1 o2 : AttemptOutcome) : MCSState × Option PyErr × List MCSWrite :=
  let saved := st.currentInstance
  let st1 := mcsDisconnect st
  if ¬connOk then
    ({ st1 with connected := false }, some .connError, [])
  else
    let st2 := { st1 with connected := true }
    match saved with
    | none => (st2, none, mcsInitWrites host)
    | some i =>
      match setInstance host st2 i o1 o2 with
      | (st3, none, w) => (st3, none, mcsInitWrites host ++ w)
      | (st3, some e, w) => (st3, some e, mcsInitWrites host ++ w)

/-- Caller-visible MCS client operations, each carrying its outcome
oracle. -/
inductive MCSOp
  | cmd (c : String) (o1 o2 : AttemptOutcome)
  | setInst (name : String) (o1 o2 : AttemptOutcome)
  | reconn (connOk : Bool) (o1 o2 : AttemptOutcome)
  | disc
deriving DecidableEq

/-- One client-level operation.  Besides the new state and the wire
writes it returns the ghost value "name passed to the most recent
`set_instance` call that returned without error" (the inner
`set_instance` performed by `reconnect` counts as such a call) and
whether the operation raised. -/
def mcsStep (host : String) (st : MCSState) (g : Option String) :
    MCSOp → MCSState × Option String × List MCSWrite × Bool
  | .cmd c o1 o2 =>
    match execCommand host st c true o1 o2 with
    | (st2, none, w) => (st2, g, w, false)
    | (st2, some _, w) => (st2, g, w, true)
  | .setInst name o1 o2 =>
    match setInstance host st name o1 o2 with
    | (st2, none, w) => (st2, some name, w, false)
    | (st2, some _, w) => (st2, g, w, true)
  | .reconn ok o1 o2 =>
    match mcsReconnect host st ok o1 o2 with
    | (st2, none, w) =>
      (st2,
        (match st.currentInstance with
         | some i => some i
         | none => g),
        w, false)
    | (st2, some _, w) => (st2, g, w, true)
  | .disc => (mcsDisconnect st, g, [], false)

/-- Run a sequence of MCS operations, accumulating the wire trace. -/
def mcsRun (host : String) :
    MCSState × Option String × List MCSWrite → List MCSOp →
      MCSState × Option String × List MCSWrite
  | acc, [] => acc
  | (st, g, w), op :: rest =>
    mcsRun host
      ((mcsStep host st g op).1, (mcsStep host st g op).2.1,
        w ++ (mcsStep host st g op).2.2.1) rest

/-- A freshly constructed client: not connected, no cached instance, no
successful `set_instance` yet, nothing written. -/
def mcsStart : MCSState × Option String × List MCSWrite :=
  (⟨false, none⟩, none, [])

/-! ## MCS response read (`SimpleMCSClient._read_response`, 190-228) -/

/-- The completion test of the MCS read loop (mcs_client_simple.py 221):
the stripped line contains `=Done`, `Ok` or `</` anywhere within it. -/
def mcsStopText (t : String) : Bool :=
  containsSub t "=Done" || containsSub t "Ok" || containsSub t "</"

/-- The read loop of `SimpleMCSClient._read_response` over the received
raw lines, in order.  Each line is decoded and stripped; empty strings
are not collected; the loop breaks when the stripped text passes
`mcsStopText` or when more than 100 lines have been collected.
Exhausting the input models EOF or timeout.  `acc` holds the collected
lines in reverse. -/
def mcsReadAux (acc : List String) : List String → List String
  | [] => acc.reverse
  | raw :: rest =>
    let text := pyStrip raw
    let acc2 := if text = "" then acc else text :: acc
    if mcsStopText text || acc2.length > 100 then acc2.reverse
    else mcsReadAux acc2 rest

/-- `SimpleMCSClient._read_response`. -/
def mcsReadResponse (raws : List String) : List String :=
  mcsReadAux [] raws

/-! ## `get_zones` lock trace (`NuVoClient.get_zones`, client.py 315-356) -/

/-- Events on the MRAD session during `get_zones`: command-mutex
transitions and the protocol exchanges. -/
inductive LockEv
  | acq
  | rel
  | write (cmd : String)
  | readReply (cmd : String)
deriving DecidableEq

/-- `NuVoClient._execute_command` (client.py 250-272): acquire the
mutex, send the command, read the reply, release — the `async with`
block spans one command only. -/
def execCommandTrace (cmd : String) : List LockEv :=
  [.acq, .write cmd, .readReply cmd, .rel]

/-- `NuVoClient.get_zones` (client.py 315-356): up to three attempts.
Each attempt sends `BrowseZones` through `_execute_command`; when the
joined reply contains `<Zones`, it sends `GetStatus` through a second,
separate `_execute_command` call and returns.  `replies` gives the
device's reply lines per command; the `Nat` is the remaining attempts. -/
def getZonesAttempts (replies : String → List String) : Nat → List LockEv
  | 0 => []
  | n + 1 =>
    let t := execCommandTrace "BrowseZones"
    if containsSub (String.join (replies "BrowseZones")) "<Zones" then
      t ++ execCommandTrace "GetStatus"
    else
      t ++ getZonesAttempts replies n

/-- The lock/wire trace of one `get_zones` call. -/
def get_zones_trace (replies : String → List String) : List LockEv :=
  getZonesAttempts replies 3

/-- The trace segment after the `BrowseZones` write and before the
`GetStatus` reply has been read. -/
def segmentBetween (tr : List LockEv) : List LockEv :=
  (tr.dropWhile (· ≠ .write "BrowseZones")).takeWhile (· ≠ .readReply "GetStatus")

/-- Modelled from the spec: the claim that the command mutex, once
acquired for `BrowseZones`, is held without release until the
`GetStatus` reply is fully read — no release event may occur in
between. -/
def mutexHeldAcross (tr : List LockEv) : Bool :=
  (segmentBetween tr).count .rel == 0

/-- Depth-checked lock discipline: the mutex is non-reentrant, every
acquire is matched by a release, and every write and read happens with
the mutex held. -/
def lockDepthOk : List LockEv → Nat → Bool
  | [], d => d == 0
  | .acq :: r, d => d == 0 && lockDepthOk r 1
  | .rel :: r, d => d == 1 && lockDepthOk r 0
  | .write _ :: r, d => d == 1 && lockDepthOk r d
  | .readReply _ :: r, d => d == 1 && lockDepthOk r d

/-- Every exchange of the trace happens under the mutex. -/
def underMutex (tr : List LockEv) : Bool :=
  lockDepthOk tr 0

/-! ## Discovery scanner (`discovery.py`)

IPv4 addresses are 32-bit naturals; `openPort`, `probeConn`, `banner`
and `hostname` are oracles for the network. -/

/-- Size of a network with the given prefix length. -/
def netSize (p : Nat) : Nat := 2 ^ (32 - p)

/-- The network address: host bits masked off
(`ipaddress.ip_network(..., strict=False)`). -/
def netBase (addr p : Nat) : Nat := addr - addr % netSize p

/-- `net.hosts()`: every host address of the network — all addresses
except network and broadcast for prefixes up to /30, both addresses of
a /31, and the single address of a /32. -/
def hostsOfNetwork (addr p : Nat) : List Nat :=
  let base := netBase addr p
  if 31 ≤ p then (List.range (netSize p)).map (base + ·)
  else (List.range (netSize p - 2)).map (fun k => base + 1 + k)

/-- `DiscoveredDevice` (discovery.py 10-20). -/
structure DiscoveredDevice where
  ip : Nat
  hostname : Option String
  mradPort : Nat
  mcsPort : Nat
  respondsToMrad : Bool
  respondsToMcs : Bool
  deviceInfo : Option String
deriving DecidableEq

/-- A TCP connect probe performed by `scan_port`: target and timeout in
milliseconds. -/
structure ProbeRec where
  ip : Nat
  port : Nat
  timeoutMs : Nat
deriving DecidableEq

/-- `probe_mrad_port` (discovery.py 47-91): on connect failure `None`;
with a banner containing a vendor token the stripped banner, otherwise
"Unknown device". -/
def probe_mrad_port (connOk : Bool) (banner : Option String) : Option String :=
  if ¬connOk then none
  else
    match banner with
    | some b =>
      if containsSub b "NuVo" || containsSub b "Autonomic" then some (pyStrip b)
      else some "Unknown device"
    | none => some "Unknown device"

/-- `scan_device` (discovery.py 94-131): probe both ports with a 500 ms
connect timeout; `None` unless at least one is open; otherwise a
`DiscoveredDevice`, identifying via the MRAD port when it is open.
Returns the result and the connect probes performed by `scan_port`. -/
def scan_device (openPort : Nat → Nat → Bool) (probeConn : Nat → Bool)
    (banner : Nat → Option String) (hostname : Nat → Option String)
    (ip : Nat) : Option DiscoveredDevice × List ProbeRec :=
  let mrad := openPort ip 5006
  let mcs := openPort ip 5004
  let log : List ProbeRec := [⟨ip, 5006, 500⟩, ⟨ip, 5004, 500⟩]
  if ¬(mrad || mcs) then (none, log)
  else
    (some ⟨ip, hostname ip, 5006, 5004, mrad, mcs,
      if mrad then probe_mrad_port (probeConn ip) (banner ip) else none⟩, log)

/-- The default of the `max_concurrent` parameter of `discover_devices`
(discovery.py 134-137), the bound handed to `asyncio.Semaphore`. -/
def discoverDefaultMaxConcurrent : Nat := 50

/-- `discover_devices` (discovery.py 134-177): enumerate the hosts of
the network, scan each (concurrency bounded by a semaphore of
`maxConcurrent`, which does not affect the result set), and keep the
non-`None` results in host order. -/
def discover_devices (openPort : Nat → Nat → Bool) (probeConn : Nat → Bool)
    (banner : Nat → Option String) (hostname : Nat → Option String)
    (addr p maxConcurrent : Nat) : List DiscoveredDevice × List ProbeRec :=
  let hosts := hostsOfNetwork addr p
  let results := hosts.map (fun ip => scan_device openPort probeConn banner hostname ip)
  (results.filterMap Prod.fst, (results.map Prod.snd).flatten)

/-! ## Event-line parsers (`protocol.py` 120-166)

`parse_state_changed` runs
`re.match(r"StateChanged\s+(\S+)\s+(\S+)=(.+)", line.strip())` and
`parse_report_state` the same pattern with `ReportState`.  The embedding
implements that pattern's exact semantics under Python's backtracking
engine, prefix-anchored as `re.match` is:

* the literal keyword must match at the start;
* `\s+` then `(\S+)` then `\s+` consume maximal runs (no backtracking
  into them can ever succeed, since shortening a `\S+` run leaves a
  non-space where `\s+` would have to match, and vice versa);
* `(\S+)=` splits the next maximal non-space run at the *last* `=` that
  leaves a nonempty group before it and lets the value pattern match
  after it — greedy `\S+` with backtracking;
* `(.+)` requires the next character to exist and not be a newline, and
  captures the maximal newline-free run;
* `(.*)$` (the spec's variant) instead requires everything up to the
  end — bar a single trailing newline — to be newline-free, and may be
  empty.
-/

/-- Strip `p` from the front of `cs`, or fail. -/
def dropPrefixQ : List Char → List Char → Option (List Char)
  | [], cs => some cs
  | _ :: _, [] => none
  | p :: ps, c :: cs => if p = c then dropPrefixQ ps cs else none

/-- `(.+)` viability: at least one character follows and it is not a
newline. -/
def headNonNewline : List Char → Bool
  | [] => false
  | c :: _ => c ≠ '\n'

/-- No newline among the characters. -/
def noNl (l : List Char) : Bool := !l.contains '\n'

/-- `(.*)$` viability under Python semantics (`$` matches at the end or
just before a single trailing newline): everything, except possibly one
final newline, is newline-free.  The empty rest is fine. -/
def restOkStar (l : List Char) : Bool :=
  match l.reverse with
  | [] => true
  | c :: rest => noNl (c :: rest) || (c = '\n' && noNl rest)

/-- Backtracking search for the `(\S+)=` split inside one maximal
non-space run.  The run is scanned reversed (so the first hit is the
last `=` of the run, as the greedy engine finds); `seen` holds the
characters already passed, in original order, and `tail` is everything
after the run.  `ok` is the viability test of the value pattern on the
rest of the input. -/
def scanEq (ok : List Char → Bool) (tail : List Char) :
    List Char → List Char → Option (List Char × List Char)
  | _, [] => none
  | seen, c :: restRev =>
    if c = '=' ∧ restRev ≠ [] ∧ ok (seen ++ tail) = true then
      some (restRev.reverse, seen)
    else scanEq ok tail (c :: seen) restRev

/-- Match `\s+(\S+)\s+(\S+)=<value>` against `cs`; returns the two
groups and the captured value characters. -/
def matchEventTail (ok : List Char → Bool) (cs : List Char) :
    Option (List Char × List Char × List Char) :=
  if (cs.takeWhile isPySpace).isEmpty then none
  else if ((cs.dropWhile isPySpace).takeWhile (fun c => !isPySpace c)).isEmpty then none
  else if (((cs.dropWhile isPySpace).dropWhile
      (fun c => !isPySpace c)).takeWhile isPySpace).isEmpty then none
  else
    match scanEq ok
        ((((cs.dropWhile isPySpace).dropWhile
          (fun c => !isPySpace c)).dropWhile isPySpace).dropWhile (fun c => !isPySpace c))
        []
        (((((cs.dropWhile isPySpace).dropWhile
          (fun c => !isPySpace c)).dropWhile isPySpace).takeWhile
            (fun c => !isPySpace c)).reverse) with
    | none => none
    | some (g2, after) =>
      some ((cs.dropWhile isPySpace).takeWhile (fun c => !isPySpace c), g2,
        (after ++
          (((cs.dropWhile isPySpace).dropWhile
            (fun c => !isPySpace c)).dropWhile isPySpace).dropWhile
              (fun c => !isPySpace c)).takeWhile (fun c => c ≠ '\n'))

/-- Match `<keyword>\s+(\S+)\s+(\S+)=<value>` as a prefix of `cs`. -/
def matchAfterKeyword (kw : List Char) (ok : List Char → Bool)
    (cs : List Char) : Option (List Char × List Char × List Char) :=
  match dropPrefixQ kw cs with
  | none => none
  | some rest => matchEventTail ok rest

/-- `parse_state_changed` (protocol.py 120-146):
`re.match(r"StateChanged\s+(\S+)\s+(\S+)=(.+)", line.strip())`; on a
match, returns `(target, property, value.strip())`. -/
def parse_state_changed (line : String) : Option (String × String × String) :=
  match matchAfterKeyword "StateChanged".toList headNonNewline
      (pyStripL line.toList) with
  | none => none
  | some (g1, g2, g3) => some (⟨g1⟩, ⟨g2⟩, pyStrip ⟨g3⟩)

/-- `parse_report_state` (protocol.py 149-166): the same pattern with
the `ReportState` keyword. -/
def parse_report_state (line : String) : Option (String × String × String) :=
  match matchAfterKeyword "ReportState".toList headNonNewline
      (pyStripL line.toList) with
  | none => none
  | some (g1, g2, g3) => some (⟨g1⟩, ⟨g2⟩, pyStrip ⟨g3⟩)

/-- Modelled from the spec: the regex the claim states,
`^(ReportState|StateChanged)\s+(\S+)\s+(\S+)=(.*)$`, fully anchored on
the raw line, with the value group possibly empty; returns the matched
keyword and the three groups (the value group raw, not stripped). -/
def specEventRegex (line : String) :
    Option (String × String × String × String) :=
  match matchAfterKeyword "ReportState".toList restOkStar line.toList with
  | some (g1, g2, g3) => some ("ReportState", ⟨g1⟩, ⟨g2⟩, ⟨g3⟩)
  | none =>
    match matchAfterKeyword "StateChanged".toList restOkStar line.toList with
    | some (g1, g2, g3) => some ("StateChanged", ⟨g1⟩, ⟨g2⟩, ⟨g3⟩)
    | none => none

/-- Right strip: drop trailing characters satisfying `isPySpace`. -/
def rstripL (cs : List Char) : List Char :=
  (cs.reverse.dropWhile isPySpace).reverse

/-! ## Basic lemmas -/

theorem mradReadResponse_cons (l : String) (rest : List String) :
    mradReadResponse (l :: rest) =
      if mradStopLine l then [l] else l :: mradReadResponse rest := rfl

theorem runCallbacks_catching (beh : Nat → CbOutcome) (l : List Nat) :
    runCallbacks beh true l = (l, true) := by
  induction l with
  | nil => rfl
  | cons cb rest ih =>
    cases h : beh cb <;> simp [runCallbacks, h, ih]

theorem nodup_subscribe (m : EventManager) (cb : Nat)
    (h : m.subscribers.Nodup) : (subscribe m cb).subscribers.Nodup := by
  unfold subscribe
  split
  · exact h
  · next hmem =>
    simp only [List.nodup_append, List.nodup_singleton, true_and]
    exact ⟨h, by simpa [List.disjoint_left] using hmem⟩

theorem nodup_unsubscribe (m : EventManager) (cb : Nat)
    (h : m.subscribers.Nodup) : (unsubscribe m cb).subscribers.Nodup := by
  unfold unsubscribe
  split
  · exact h.erase cb
  · exact h

theorem nodup_applyEMOp (m : EventManager) (op : EMOp)
    (h : m.subscribers.Nodup) : (applyEMOp m op).subscribers.Nodup := by
  cases op with
  | sub cb => exact nodup_subscribe m cb h
  | unsub cb => exact nodup_unsubscribe m cb h
  | wipe => exact List.nodup_nil

theorem nodup_foldl_applyEMOp (ops : List EMOp) :
    ∀ m : EventManager, m.subscribers.Nodup →
      (ops.foldl applyEMOp m).subscribers.Nodup := by
  induction ops with
  | nil => intro m h; exact h
  | cons op rest ih =>
    intro m h
    exact ih (applyEMOp m op) (nodup_applyEMOp m op h)

theorem count_command_initWrites (host cmd : String) :
    (mcsInitWrites host).count (MCSWrite.command cmd) = 0 := by
  simp [mcsInitWrites, List.count_cons]

theorem execCommand_currentInstance (host : String) (st : MCSState) (cmd : String)
    (r : Bool) (o1 o2 : AttemptOutcome) :
    (execCommand host st cmd r o1 o2).1.currentInstance = st.currentInstance := by
  cases o1 <;> cases o2 <;> cases r <;> simp [execCommand, attemptError]

theorem execCommand_ok_mem (host : String) (st : MCSState) (cmd : String)
    (o1 o2 : AttemptOutcome)
    (h : (execCommand host st cmd true o1 o2).2.1 = none) :
    MCSWrite.command cmd ∈ (execCommand host st cmd true o1 o2).2.2 := by
  cases o1 <;> cases o2 <;> cases hci : st.currentInstance <;>
    simp_all [execCommand, attemptError]

theorem setInstance_state (host : String) (st : MCSState) (name : String)
    (o1 o2 : AttemptOutcome) :
    ((setInstance host st name o1 o2).2.1 = none →
      (setInstance host st name o1 o2).1.currentInstance = some name) ∧
    (∀ e, (setInstance host st name o1 o2).2.1 = some e →
      (setInstance host st name o1 o2).1.currentInstance = st.currentInstance) := by
  unfold setInstance
  rcases he : execCommand host st ("SetInstance " ++ name) true o1 o2 with ⟨st2, err, w⟩
  have hp := execCommand_currentInstance host st ("SetInstance " ++ name) true o1 o2
  rw [he] at hp
  cases err <;> simp_all

theorem setInstance_ok_mem (host : String) (st : MCSState) (name : String)
    (o1 o2 : AttemptOutcome)
    (h : (setInstance host st name o1 o2).2.1 = none) :
    MCSWrite.command ("SetInstance " ++ name) ∈ (setInstance host st name o1 o2).2.2 := by
  unfold setInstance at h ⊢
  rcases he : execCommand host st ("SetInstance " ++ name) true o1 o2 with ⟨st2, err, w⟩
  cases err
  · have hm := execCommand_ok_mem host st ("SetInstance " ++ name) o1 o2 (by rw [he])
    rw [he] at hm
    exact hm
  · rw [he] at h
    exact Option.noConfusion h

theorem mcsReconnect_false (host : String) (st : MCSState)
    (o1 o2 : AttemptOutcome) :
    mcsReconnect host st false o1 o2 =
      (⟨false, st.currentInstance⟩, some .connError, []) := rfl

theorem mcsReconnect_true_none (host : String) (st : MCSState)
    (o1 o2 : AttemptOutcome) (hci : st.currentInstance = none) :
    mcsReconnect host st true o1 o2 = (⟨true, none⟩, none, mcsInitWrites host) := by
  simp [mcsReconnect, mcsDisconnect, hci]

theorem mcsReconnect_true_some (host : String) (st : MCSState) (i : String)
    (o1 o2 : AttemptOutcome) (hci : st.currentInstance = some i) :
    mcsReconnect host st true o1 o2 =
      (match setInstance host ⟨true, some i⟩ i o1 o2 with
       | (st3, none, w) => (st3, none, mcsInitWrites host ++ w)
       | (st3, some e, w) => (st3, some e, mcsInitWrites host ++ w)) := by
  simp [mcsReconnect, mcsDisconnect, hci]

theorem mcsReconnect_currentInstance (host : String) (st : MCSState) (ok : Bool)
    (o1 o2 : AttemptOutcome) :
    (mcsReconnect host st ok o1 o2).1.currentInstance = st.currentInstance := by
  cases ok
  · rw [mcsReconnect_false]
  · cases hci : st.currentInstance with
    | none => rw [mcsReconnect_true_none host st o1 o2 hci]
    | some i =>
      rw [mcsReconnect_true_some host st i o1 o2 hci]
      rcases he : setInstance host ⟨true, some i⟩ i o1 o2 with ⟨st3, err, w⟩
      have hs := setInstance_state host ⟨true, some i⟩ i o1 o2
      rw [he] at hs
      cases err
      · have := hs.1 rfl
        simp_all
      · next e =>
        have := hs.2 e rfl
        simp_all

theorem mcsReconnect_replays (host : String) (st : MCSState) (ok : Bool)
    (o1 o2 : AttemptOutcome) (i : String)
    (hci : st.currentInstance = some i)
    (hok : (mcsReconnect host st ok o1 o2).2.1 = none) :
    ∃ msg ∈ (mcsReconnect host st ok o1 o2).2.2,
      wireBytes msg = "SetInstance " ++ i := by
  cases ok
  · rw [mcsReconnect_false] at hok
    simp at hok
  · rw [mcsReconnect_true_some host st i o1 o2 hci] at hok ⊢
    rcases he : setInstance host ⟨true, some i⟩ i o1 o2 with ⟨st3, err, w⟩
    cases err
    · have hm := setInstance_ok_mem host ⟨true, some i⟩ i o1 o2 (by rw [he])
      rw [he] at hm
      exact ⟨.command ("SetInstance " ++ i), List.mem_append_right _ hm, rfl⟩
    · rw [he] at hok
      exact Option.noConfusion hok

theorem mcsStep_inv (host : String) (st : MCSState) (g : Option String) (op : MCSOp)
    (h : st.currentInstance = g) :
    (mcsStep host st g op).1.currentInstance = (mcsStep host st g op).2.1 := by
  cases op with
  | cmd c o1 o2 =>
    rcases he : execCommand host st c true o1 o2 with ⟨st2, err, w⟩
    have hp := execCommand_currentInstance host st c true o1 o2
    rw [he] at hp
    cases err <;> simp_all [mcsStep]
  | setInst name o1 o2 =>
    rcases he : setInstance host st name o1 o2 with ⟨st2, err, w⟩
    have hs := setInstance_state host st name o1 o2
    rw [he] at hs
    cases err
    · have := hs.1 rfl
      simp_all [mcsStep]
    · next e =>
      have := hs.2 e rfl
      simp_all [mcsStep]
  | reconn ok o1 o2 =>
    rcases he : mcsReconnect host st ok o1 o2 with ⟨st2, err, w⟩
    have hp := mcsReconnect_currentInstance host st ok o1 o2
    rw [he] at hp
    cases err <;> cases hg : g <;> simp_all [mcsStep]
  | disc => simpa [mcsStep, mcsDisconnect] using h

theorem mcsStep_reconn_ok (host : String) (st : MCSState) (g : Option String)
    (ok : Bool) (o1 o2 : AttemptOutcome)
    (h : (mcsStep host st g (.reconn ok o1 o2)).2.2.2 = false) :
    (mcsReconnect host st ok o1 o2).2.1 = none ∧
    (mcsStep host st g (.reconn ok o1 o2)).2.2.1 = (mcsReconnect host st ok o1 o2).2.2 := by
  rcases he : mcsReconnect host st ok o1 o2 with ⟨st2, err, w⟩
  cases err <;> simp_all [mcsStep, he]

theorem mcsRun_inv_aux (host : String) :
    ∀ (ops : List MCSOp) (st : MCSState) (g : Option String) (w : List MCSWrite),
      st.currentInstance = g →
      (mcsRun host (st, g, w) ops).1.currentInstance =
        (mcsRun host (st, g, w) ops).2.1 := by
  intro ops
  induction ops with
  | nil => intro st g w h; simpa [mcsRun] using h
  | cons op rest ih =>
    intro st g w h
    simp only [mcsRun]
    exact ih _ _ _ (mcsStep_inv host st g op h)

theorem mcsRun_trace_prefix (host : String) :
    ∀ (ops : List MCSOp) (st : MCSState) (g : Option String) (w : List MCSWrite),
      ∃ t, (mcsRun host (st, g, w) ops).2.2 = w ++ t := by
  intro ops
  induction ops with
  | nil => intro st g w; exact ⟨[], by simp [mcsRun]⟩
  | cons op rest ih =>
    intro st g w
    simp only [mcsRun]
    obtain ⟨t, ht⟩ := ih (mcsStep host st g op).1 (mcsStep host st g op).2.1
      (w ++ (mcsStep host st g op).2.2.1)
    exact ⟨(mcsStep host st g op).2.2.1 ++ t, by rw [ht, List.append_assoc]⟩

theorem mcsRun_append (host : String) :
    ∀ (l1 l2 : List MCSOp) (acc : MCSState × Option String × List MCSWrite),
      mcsRun host acc (l1 ++ l2) = mcsRun host (mcsRun host acc l1) l2 := by
  intro l1
  induction l1 with
  | nil =>
    intro l2 acc
    rcases acc with ⟨st, g, w⟩
    simp [mcsRun]
  | cons op rest ih =>
    intro l2 acc
    rcases acc with ⟨st, g, w⟩
    simp only [List.cons_append, mcsRun]
    exact ih l2 _

/-! ## Claim theorems: C1, C4, C7, C8 -/

/-- C1: every `set_volume` call with a volume outside `[0, 79]` fails with
the local `ValueError` (HTTP 422 at the route) before any bytes are
written to the device, leaving the client state — connected flag and
active zone — unchanged; for a volume inside `[0, 79]` no such
validation error is ever raised. -/
theorem c1_set_volume_validates_locally :
    (∀ (st : MradState) (v : Int) (z : Option Int) (wf : Bool),
      (v < 0 ∨ 79 < v) → setVolume st v z wf = (some .valueError, st, [])) ∧
    (∀ (st : MradState) (v : Int) (z : Option Int) (wf : Bool),
      0 ≤ v → v ≤ 79 → (setVolume st v z wf).1 ≠ some .valueError) ∧
    (∀ (st : MradState) (zn v : Int) (wf : Bool),
      (v < 0 ∨ 79 < v) →
        routeSetVolume st zn v wf =
          (.httpError 422 "Volume must be between 0 and 79", st, [])) := by
  refine ⟨?_, ?_, ?_⟩
  · intro st v z wf h
    have hc : ¬(0 ≤ v ∧ v ≤ 79) := by omega
    simp [setVolume, hc]
  · intro st v z wf h0 h79
    have hc : (0 ≤ v ∧ v ≤ 79) := ⟨h0, h79⟩
    unfold setVolume
    rw [if_neg (not_not_intro hc)]
    by_cases hcon : st.connected <;> by_cases hwf : wf <;>
      cases hz : zoneTruthy z <;> simp [hcon, hwf, hz]
  · intro st zn v wf h
    have hc : ¬(0 ≤ v ∧ v ≤ 79) := by omega
    simp [routeSetVolume, hc]

/-- Closed instantiation of `c1_set_volume_validates_locally`:
volume 80 is rejected locally, volume 50 is not. -/
theorem c1_witness :
    setVolume ⟨true, none⟩ 80 (some 1) false = (some .valueError, ⟨true, none⟩, []) ∧
    (setVolume ⟨true, none⟩ 50 (some 1) false).1 ≠ some .valueError ∧
    routeSetVolume ⟨true, none⟩ 1 80 false =
      (.httpError 422 "Volume must be between 0 and 79", ⟨true, none⟩, []) :=
  ⟨c1_set_volume_validates_locally.1 ⟨true, none⟩ 80 (some 1) false (Or.inr (by decide)),
   c1_set_volume_validates_locally.2.1 ⟨true, none⟩ 50 (some 1) false (by decide) (by decide),
   c1_set_volume_validates_locally.2.2 ⟨true, none⟩ 1 80 false (Or.inr (by decide))⟩

/-- C4 counterexample: the claim says a bare `=Done` line terminates the
MRAD response read; in `NuVoClient._read_response` (client.py 234) only
`endswith(">")` and `== "Ok"` are checked, so the read continues past
`=Done` and collects the following line. -/
theorem c4_counterexample :
    mradReadResponse ["=Done", "NextLine"] = ["=Done", "NextLine"] ∧
    specCompletionMarker "=Done" = true ∧
    mradReadResponse ["=Done", "NextLine"] ≠ ["=Done"] := by
  refine ⟨rfl, rfl, by decide⟩

/-- C4 amended: the MRAD response read terminates, with the terminating
line included as the last returned line, exactly when a received line is
bare `Ok` or ends with a `>` prompt; `=Done` is not a completion marker
for this read.  First conjunct: the first such line stops the read and
the rest of the queue is left unread.  Second conjunct: with no such
line, everything queued is returned. -/
theorem c4_mrad_completion_markers (pre : List String) (l : String)
    (rest lines : List String)
    (hpre : ∀ x ∈ pre, mradStopLine x = false) (hl : mradStopLine l = true)
    (hnone : ∀ x ∈ lines, mradStopLine x = false) :
    mradReadResponse (pre ++ l :: rest) = pre ++ [l] ∧
    mradReadResponse lines = lines := by
  constructor
  · induction pre with
    | nil => simp [mradReadResponse_cons, hl]
    | cons x xs ih =>
      have hx : mradStopLine x = false := hpre x (by simp)
      have := ih (fun y hy => hpre y (by simp [hy]))
      simp [mradReadResponse_cons, hx, this]
  · induction lines with
    | nil => rfl
    | cons x xs ih =>
      have hx : mradStopLine x = false := hnone x (by simp)
      have := ih (fun y hy => hnone y (by simp [hy]))
      simp [mradReadResponse_cons, hx, this]

/-- Closed instantiation of `c4_mrad_completion_markers`: a reply queue
whose third line is `Ok` is cut there; a queue with no marker is
returned whole. -/
theorem c4_witness :
    mradReadResponse ["ReportState Zone_1 Volume=10", "ReportState Zone_1 Mute=False",
        "Ok", "Leftover"] =
      ["ReportState Zone_1 Volume=10", "ReportState Zone_1 Mute=False", "Ok"] ∧
    mradReadResponse ["A", "B"] = ["A", "B"] :=
  c4_mrad_completion_markers
    ["ReportState Zone_1 Volume=10", "ReportState Zone_1 Mute=False"] "Ok" ["Leftover"]
    ["A", "B"] (by decide) (by decide) (by decide)

/-- C7: `EventManager.notify` invokes every registered subscriber in
order on the event; an exception raised by any subscriber is caught, so
it neither prevents delivery to the subscribers after it nor propagates
out of `notify` into the read loop. -/
theorem c7_notify_isolates_subscriber_errors (beh : Nat → CbOutcome)
    (m : EventManager) :
    (notify beh m).1 = m.subscribers ∧ (notify beh m).2 = true := by
  unfold notify
  rw [runCallbacks_catching]
  exact ⟨rfl, rfl⟩

/-- C8 counterexample: the claim says unsubscribe-after-subscribe
restores the original subscriber list; when the callback is already
subscribed the subscribe is a no-op but the unsubscribe still removes
it, so the original list is not restored. -/
theorem c8_counterexample :
    unsubscribe (subscribe ⟨[7]⟩ 7) 7 = (⟨[]⟩ : EventManager) ∧
    (⟨[]⟩ : EventManager) ≠ ⟨[7]⟩ := by
  refine ⟨by decide, by decide⟩

/-- C8 amended: each distinct subscribed callback is invoked exactly
once per delivered event even after repeated `subscribe` calls with the
same callback (the subscriber list built by any operation sequence has
no duplicates, and subscribing an already-registered callback is a
no-op); `unsubscribe` after `subscribe` restores the original list
provided the callback was not already subscribed. -/
theorem c8_each_subscriber_fires_once :
    (∀ ops : List EMOp, (runEMOps ops).subscribers.Nodup) ∧
    (∀ (m : EventManager) (beh : Nat → CbOutcome) (cb : Nat),
      m.subscribers.Nodup →
      (notify beh m).1.count cb = if cb ∈ m.subscribers then 1 else 0) ∧
    (∀ (m : EventManager) (cb : Nat), cb ∈ m.subscribers → subscribe m cb = m) ∧
    (∀ (m : EventManager) (cb : Nat), cb ∉ m.subscribers →
      unsubscribe (subscribe m cb) cb = m) := by
  refine ⟨?_, ?_, ?_, ?_⟩
  · intro ops
    exact nodup_foldl_applyEMOp ops EventManager.empty List.nodup_nil
  · intro m beh cb hnd
    unfold notify
    rw [runCallbacks_catching]
    by_cases hmem : cb ∈ m.subscribers
    · simp only [hmem, if_true]
      exact List.count_eq_one_of_mem hnd hmem
    · simp only [hmem, if_false]
      exact List.count_eq_zero_of_not_mem hmem
  · intro m cb hmem
    unfold subscribe
    rw [if_pos hmem]
  · intro m cb hmem
    unfold subscribe
    rw [if_neg hmem]
    unfold unsubscribe
    have hin : cb ∈ m.subscribers ++ [cb] := by simp
    simp only [hin, if_pos]
    have : (m.subscribers ++ [cb]).erase cb = m.subscribers := by
      rw [List.erase_append_right _ hmem, List.erase_cons_head]
      simp
    simp [this]

/-- Closed instantiation of `c8_each_subscriber_fires_once`. -/
theorem c8_witness :
    (runEMOps [.sub 1, .sub 1, .sub 2]).subscribers.Nodup ∧
    (notify (fun _ => .raises) ⟨[3, 4]⟩).1.count 3 = 1 ∧
    subscribe ⟨[5]⟩ 5 = ⟨[5]⟩ ∧
    unsubscribe (subscribe ⟨[9]⟩ 5) 5 = ⟨[9]⟩ := by
  refine ⟨c8_each_subscriber_fires_once.1 _, ?_,
    c8_each_subscriber_fires_once.2.2.1 ⟨[5]⟩ 5 (by decide),
    c8_each_subscriber_fires_once.2.2.2 ⟨[9]⟩ 5 (by decide)⟩
  have h := c8_each_subscriber_fires_once.2.1 ⟨[3, 4]⟩ (fun _ => .raises) 3 (by decide)
  simpa using h

/-! ## Claim theorems: C3, C6, C9 -/

theorem mcsStopText_empty : mcsStopText "" = false := by decide

theorem takeWhile_append_all (p : Char → Bool) :
    ∀ (xs ys : List Char), (∀ c ∈ xs, p c = true) →
      (xs ++ ys).takeWhile p = xs ++ ys.takeWhile p := by
  intro xs
  induction xs with
  | nil => intro ys h; simp
  | cons x xs ih =>
    intro ys h
    have hx : p x = true := h x (by simp)
    simp [List.takeWhile_cons, hx, ih ys (fun c hc => h c (by simp [hc]))]

theorem takeWhile_all_eq_self (p : Char → Bool) (xs : List Char)
    (h : ∀ c ∈ xs, p c = true) : xs.takeWhile p = xs := by
  have := takeWhile_append_all p xs [] h
  simpa using this

theorem dropWhile_append_all (p : Char → Bool) :
    ∀ (xs ys : List Char), (∀ c ∈ xs, p c = true) →
      (xs ++ ys).dropWhile p = ys.dropWhile p := by
  intro xs
  induction xs with
  | nil => intro ys h; simp
  | cons x xs ih =>
    intro ys h
    have hx : p x = true := h x (by simp)
    simp [List.dropWhile_cons, hx, ih ys (fun c hc => h c (by simp [hc]))]

theorem dropWhile_append_of_ne_nil (p : Char → Bool) :
    ∀ (xs ys : List Char), xs.dropWhile p ≠ [] →
      (xs ++ ys).dropWhile p = xs.dropWhile p ++ ys := by
  intro xs
  induction xs with
  | nil => intro ys h; exact absurd rfl h
  | cons x xs ih =>
    intro ys h
    by_cases hx : p x
    · simp only [List.cons_append, List.dropWhile_cons, hx, if_true] at h ⊢
      exact ih ys h
    · simp [List.dropWhile_cons, hx]

theorem dropPrefixQ_append (p : List Char) :
    ∀ rest, dropPrefixQ p (p ++ rest) = some rest := by
  induction p with
  | nil => intro rest; rfl
  | cons c p ih => intro rest; simp [dropPrefixQ, ih]

theorem scanEq_hit (ok : List Char → Bool) (tail seen g2rev : List Char)
    (hne : g2rev ≠ []) (hok : ok (seen ++ tail) = true) :
    scanEq ok tail seen ('=' :: g2rev) = some (g2rev.reverse, seen) := by
  simp [scanEq, hne, hok]

theorem scanEq_skip (ok : List Char → Bool) (tail : List Char) :
    ∀ (pre seen rest : List Char), '=' ∉ pre →
      scanEq ok tail seen (pre.reverse ++ rest) =
        scanEq ok tail (pre ++ seen) rest := by
  intro pre
  induction pre with
  | nil => intro seen rest h; simp
  | cons a pre ih =>
    intro seen rest h
    have ha : ¬(a = '=') := by
      intro he
      subst he
      exact h (List.mem_cons_self _ _)
    rw [show (a :: pre).reverse ++ rest = pre.reverse ++ (a :: rest) by simp]
    rw [ih seen (a :: rest) (fun hm => h (by simp [hm]))]
    simp [scanEq, ha]

theorem scanEq_none (ok : List Char → Bool) (tail : List Char) :
    ∀ (l seen : List Char), '=' ∉ l → scanEq ok tail seen l = none := by
  intro l
  induction l with
  | nil => intro seen h; rfl
  | cons c l ih =>
    intro seen h
    have hc : ¬(c = '=') := by
      intro he
      subst he
      exact h (List.mem_cons_self _ _)
    simp [scanEq, hc, ih (c :: seen) (fun hm => h (by simp [hm]))]

theorem dropWhile_all_nil (p : Char → Bool) (xs : List Char)
    (h : ∀ c ∈ xs, p c = true) : xs.dropWhile p = [] := by
  have := dropWhile_append_all p xs [] h
  simpa using this

theorem pyStripL_concat (A v : List Char)
    (hhead : ∃ c A', A = c :: A' ∧ isPySpace c = false)
    (hlast : ∃ d B, A.reverse = d :: B ∧ isPySpace d = false) :
    pyStripL (A ++ v) = A ++ rstripL v := by
  obtain ⟨c, A', hA, hc⟩ := hhead
  obtain ⟨d, B, hAr, hd⟩ := hlast
  unfold pyStripL rstripL
  have h1 : (A ++ v).dropWhile isPySpace = A ++ v := by
    rw [hA]
    simp [List.dropWhile_cons, hc]
  rw [h1, List.reverse_append]
  by_cases hve : v.reverse.dropWhile isPySpace = []
  · have hall : ∀ x ∈ v.reverse, isPySpace x = true := by
      have htw : v.reverse.takeWhile isPySpace = v.reverse := by
        have hsplit := List.takeWhile_append_dropWhile (p := isPySpace) (l := v.reverse)
        rw [hve, List.append_nil] at hsplit
        exact hsplit
      intro x hx
      rw [← htw] at hx
      exact List.mem_takeWhile_imp hx
    rw [dropWhile_append_all _ _ _ hall, hAr]
    simp only [List.dropWhile_cons, hd, Bool.false_eq_true, if_false]
    rw [← hAr, List.reverse_reverse, hve]
    simp
  · rw [dropWhile_append_of_ne_nil _ _ _ hve, List.reverse_append,
      List.reverse_reverse]

theorem mcsReadAux_cons (acc : List String) (raw : String) (rest : List String) :
    mcsReadAux acc (raw :: rest) =
      (if mcsStopText (pyStrip raw) ||
          decide ((if pyStrip raw = "" then acc else pyStrip raw :: acc).length > 100) then
        (if pyStrip raw = "" then acc else pyStrip raw :: acc).reverse
      else mcsReadAux (if pyStrip raw = "" then acc else pyStrip raw :: acc) rest) := rfl

theorem mcsReadAux_stop (acc : List String) (t : String) (rest : List String)
    (h : mcsStopText (pyStrip t) = true) :
    mcsReadAux acc (t :: rest) = acc.reverse ++ [pyStrip t] := by
  have hne : ¬(pyStrip t = "") := by
    intro he
    rw [he] at h
    exact absurd h (by decide)
  simp [mcsReadAux, hne, h]

theorem mcsReadAux_bound (acc : List String) (t : String) (rest : List String)
    (hm : mcsStopText (pyStrip t) = false) (hne : pyStrip t ≠ "")
    (hlen : acc.length = 100) :
    mcsReadAux acc (t :: rest) = acc.reverse ++ [pyStrip t] := by
  simp [mcsReadAux, hne, hm, hlen]

theorem mcsReadAux_clean : ∀ (pre acc l2 : List String),
    (∀ x ∈ pre, mcsStopText (pyStrip x) = false) →
    acc.length + ((pre.map pyStrip).filter (fun s => s ≠ "")).length ≤ 100 →
    mcsReadAux acc (pre ++ l2) =
      mcsReadAux (((pre.map pyStrip).filter (fun s => s ≠ "")).reverse ++ acc) l2 := by
  intro pre
  induction pre with
  | nil =>
    intro acc l2 h hl
    simp
  | cons x rest ih =>
    intro acc l2 h hl
    have hx : mcsStopText (pyStrip x) = false := h x (by simp)
    by_cases hxe : pyStrip x = ""
    · have hfilter : ((x :: rest).map pyStrip).filter (fun s => s ≠ "") =
          (rest.map pyStrip).filter (fun s => s ≠ "") := by
        simp [List.filter_cons, hxe]
      have hgt : ¬(acc.length > 100) := by omega
      have hstep : mcsReadAux acc ((x :: rest) ++ l2) = mcsReadAux acc (rest ++ l2) := by
        rw [List.cons_append, mcsReadAux_cons]
        simp [hxe, mcsStopText_empty, hgt]
      rw [hstep, hfilter]
      rw [hfilter] at hl
      exact ih acc l2 (fun y hy => h y (by simp [hy])) hl
    · have hfilter : ((x :: rest).map pyStrip).filter (fun s => s ≠ "") =
          pyStrip x :: (rest.map pyStrip).filter (fun s => s ≠ "") := by
        simp [List.filter_cons, hxe]
      rw [hfilter] at hl
      simp only [List.length_cons] at hl
      have hgt : ¬(100 < acc.length + 1) := by omega
      have hstep : mcsReadAux acc ((x :: rest) ++ l2) =
          mcsReadAux (pyStrip x :: acc) (rest ++ l2) := by
        rw [List.cons_append, mcsReadAux_cons]
        simp [hxe, hx, hgt]
      rw [hstep, hfilter]
      rw [ih (pyStrip x :: acc) l2 (fun y hy => h y (by simp [hy]))
        (by simp only [List.length_cons]; omega)]
      simp

theorem matchEventTail_complete (ok : List Char → Bool) (g1 g2 w : List Char)
    (hg1 : g1 ≠ []) (hg1s : ∀ c ∈ g1, isPySpace c = false)
    (hg2 : g2 ≠ []) (hg2s : ∀ c ∈ g2, isPySpace c = false)
    (hg2e : '=' ∉ g2) (hwe : '=' ∉ w) (hwn : '\n' ∉ w)
    (hok : ok w = true) :
    matchEventTail ok (' ' :: (g1 ++ ' ' :: (g2 ++ '=' :: w))) =
      some (g1, g2, w) := by
  obtain ⟨c1, g1t, hg1eq⟩ : ∃ c t, g1 = c :: t := by
    cases g1 with
    | nil => exact absurd rfl hg1
    | cons a b => exact ⟨a, b, rfl⟩
  obtain ⟨c2, g2t, hg2eq⟩ : ∃ c t, g2 = c :: t := by
    cases g2 with
    | nil => exact absurd rfl hg2
    | cons a b => exact ⟨a, b, rfl⟩
  have hg1ns : ∀ c ∈ g1, (!isPySpace c) = true := by
    intro c hc
    rw [hg1s c hc]
    rfl
  have hg2ns : ∀ c ∈ g2, (!isPySpace c) = true := by
    intro c hc
    rw [hg2s c hc]
    rfl
  have hc1 : isPySpace c1 = false := hg1s c1 (by rw [hg1eq]; exact List.mem_cons_self _ _)
  have hc2 : isPySpace c2 = false := hg2s c2 (by rw [hg2eq]; exact List.mem_cons_self _ _)
  -- the four span computations
  have e1 : (' ' :: (g1 ++ ' ' :: (g2 ++ '=' :: w))).takeWhile isPySpace =
      ' ' :: (g1 ++ ' ' :: (g2 ++ '=' :: w)).takeWhile isPySpace := by
    simp [List.takeWhile_cons]
    rfl
  have e1' : (g1 ++ ' ' :: (g2 ++ '=' :: w)).dropWhile isPySpace =
      g1 ++ ' ' :: (g2 ++ '=' :: w) := by
    rw [hg1eq]
    simp [List.dropWhile_cons, hc1]
  have e2 : (' ' :: (g1 ++ ' ' :: (g2 ++ '=' :: w))).dropWhile isPySpace =
      g1 ++ ' ' :: (g2 ++ '=' :: w) := by
    simp only [List.dropWhile_cons]
    rw [if_pos (by rfl)]
    exact e1'
  have e3 : (g1 ++ ' ' :: (g2 ++ '=' :: w)).takeWhile (fun c => !isPySpace c) = g1 := by
    rw [takeWhile_append_all _ _ _ hg1ns]
    simp [List.takeWhile_cons, isPySpace]
  have e4 : (g1 ++ ' ' :: (g2 ++ '=' :: w)).dropWhile (fun c => !isPySpace c) =
      ' ' :: (g2 ++ '=' :: w) := by
    rw [dropWhile_append_all _ _ _ hg1ns]
    simp [List.dropWhile_cons, isPySpace]
  have e5 : (' ' :: (g2 ++ '=' :: w)).takeWhile isPySpace =
      ' ' :: (g2 ++ '=' :: w).takeWhile isPySpace := by
    simp [List.takeWhile_cons]
    rfl
  have e6 : (' ' :: (g2 ++ '=' :: w)).dropWhile isPySpace = g2 ++ '=' :: w := by
    simp only [List.dropWhile_cons]
    rw [if_pos (by rfl)]
    rw [hg2eq]
    simp [List.dropWhile_cons, hc2]
  have e7 : (g2 ++ '=' :: w).takeWhile (fun c => !isPySpace c) =
      g2 ++ '=' :: w.takeWhile (fun c => !isPySpace c) := by
    rw [takeWhile_append_all _ _ _ hg2ns]
    simp [List.takeWhile_cons, isPySpace]
  have e8 : (g2 ++ '=' :: w).dropWhile (fun c => !isPySpace c) =
      w.dropWhile (fun c => !isPySpace c) := by
    rw [dropWhile_append_all _ _ _ hg2ns]
    simp [List.dropWhile_cons, isPySpace]
  have etw : '=' ∉ w.takeWhile (fun c => !isPySpace c) := by
    intro hm
    exact hwe ((List.takeWhile_sublist _).subset hm)
  have escan : scanEq ok (w.dropWhile (fun c => !isPySpace c)) []
      ((g2 ++ '=' :: w.takeWhile (fun c => !isPySpace c)).reverse) =
      some (g2, w.takeWhile (fun c => !isPySpace c)) := by
    have hrev : (g2 ++ '=' :: w.takeWhile (fun c => !isPySpace c)).reverse =
        (w.takeWhile (fun c => !isPySpace c)).reverse ++ ('=' :: g2.reverse) := by
      simp
    rw [hrev, scanEq_skip ok _ _ [] _ etw, List.append_nil,
      scanEq_hit ok _ _ _ (by simp [hg2eq]) ?_,
      List.reverse_reverse]
    rw [List.takeWhile_append_dropWhile]
    exact hok
  have eval1 : ((w.takeWhile (fun c => !isPySpace c)) ++
      (w.dropWhile (fun c => !isPySpace c))).takeWhile (fun c => (c ≠ '\n' : Bool)) = w := by
    rw [List.takeWhile_append_dropWhile]
    refine takeWhile_all_eq_self _ _ ?_
    intro c hc
    simp only [decide_eq_true_eq]
    intro he
    rw [he] at hc
    exact hwn hc
  unfold matchEventTail
  rw [e1]
  simp only [List.isEmpty_cons, Bool.false_eq_true, if_false]
  rw [e2, e3]
  rw [show g1.isEmpty = false from by rw [hg1eq]; rfl]
  simp only [Bool.false_eq_true, if_false]
  rw [e4, e5]
  simp only [List.isEmpty_cons, Bool.false_eq_true, if_false]
  rw [e6, e7, e8, escan]
  simp only [eval1]

theorem rstripL_subset (l : List Char) : ∀ c ∈ rstripL l, c ∈ l := by
  intro c hc
  unfold rstripL at hc
  rw [List.mem_reverse] at hc
  have h2 := (List.dropWhile_suffix isPySpace).sublist.subset hc
  rw [List.mem_reverse] at h2
  exact h2

theorem pyStripL_subset (l : List Char) : ∀ c ∈ pyStripL l, c ∈ l := by
  intro c hc
  unfold pyStripL at hc
  rw [List.mem_reverse] at hc
  have h1 := (List.dropWhile_suffix isPySpace).sublist.subset hc
  rw [List.mem_reverse] at h1
  exact (List.dropWhile_suffix isPySpace).sublist.subset h1

theorem rstripL_cons_head (c : Char) (vt : List Char) (hc : isPySpace c = false) :
    ∃ rest, rstripL (c :: vt) = c :: rest := by
  unfold rstripL
  rw [List.reverse_cons]
  by_cases hve : vt.reverse.dropWhile isPySpace = []
  · have hall : ∀ x ∈ vt.reverse, isPySpace x = true := by
      have htw : vt.reverse.takeWhile isPySpace = vt.reverse := by
        have hsplit := List.takeWhile_append_dropWhile (p := isPySpace) (l := vt.reverse)
        rw [hve, List.append_nil] at hsplit
        exact hsplit
      intro x hx
      rw [← htw] at hx
      exact List.mem_takeWhile_imp hx
    rw [dropWhile_append_all _ _ _ hall]
    refine ⟨[], ?_⟩
    simp [List.dropWhile_cons, hc]
  · rw [dropWhile_append_of_ne_nil _ _ _ hve]
    exact ⟨(vt.reverse.dropWhile isPySpace).reverse, by simp⟩

theorem dropPrefixQ_mem (p : List Char) :
    ∀ (l r : List Char), dropPrefixQ p l = some r → ∀ c ∈ r, c ∈ l := by
  induction p with
  | nil =>
    intro l r h c hc
    cases h
    exact hc
  | cons a p ih =>
    intro l r h c hc
    cases l with
    | nil => exact absurd h (by simp [dropPrefixQ])
    | cons b l2 =>
      simp only [dropPrefixQ] at h
      by_cases hab : a = b
      · rw [if_pos hab] at h
        exact List.mem_cons_of_mem _ (ih l2 r h c hc)
      · rw [if_neg hab] at h
        exact absurd h (by simp)

theorem matchEventTail_no_eq (ok : List Char → Bool) (cs : List Char)
    (h : '=' ∉ cs) : matchEventTail ok cs = none := by
  unfold matchEventTail
  split
  · rfl
  · split
    · rfl
    · split
      · rfl
      · have hrun : '=' ∉
            ((((cs.dropWhile isPySpace).dropWhile
              (fun c => !isPySpace c)).dropWhile isPySpace).takeWhile
                (fun c => !isPySpace c)).reverse := by
          intro hm
          rw [List.mem_reverse] at hm
          have h1 := (List.takeWhile_prefix (fun c => !isPySpace c)).sublist.subset hm
          have h2 := (List.dropWhile_suffix isPySpace).sublist.subset h1
          have h3 := (List.dropWhile_suffix (fun c => !isPySpace c)).sublist.subset h2
          exact h ((List.dropWhile_suffix isPySpace).sublist.subset h3)
        rw [scanEq_none ok _ _ _ hrun]

theorem matchEventTail_empty_value (g1 g2 : List Char)
    (hg1 : g1 ≠ []) (hg1s : ∀ c ∈ g1, isPySpace c = false)
    (hg2 : g2 ≠ []) (hg2s : ∀ c ∈ g2, isPySpace c = false)
    (hg2e : '=' ∉ g2) :
    matchEventTail headNonNewline (' ' :: (g1 ++ ' ' :: (g2 ++ ['=']))) = none := by
  have h := matchEventTail_no_eq -- placeholder to keep structure readable
  obtain ⟨c1, g1t, hg1eq⟩ : ∃ c t, g1 = c :: t := by
    cases g1 with
    | nil => exact absurd rfl hg1
    | cons a b => exact ⟨a, b, rfl⟩
  obtain ⟨c2, g2t, hg2eq⟩ : ∃ c t, g2 = c :: t := by
    cases g2 with
    | nil => exact absurd rfl hg2
    | cons a b => exact ⟨a, b, rfl⟩
  have hg1ns : ∀ c ∈ g1, (!isPySpace c) = true := by
    intro c hc
    rw [hg1s c hc]
    rfl
  have hg2ns : ∀ c ∈ g2, (!isPySpace c) = true := by
    intro c hc
    rw [hg2s c hc]
    rfl
  have hc1 : isPySpace c1 = false := hg1s c1 (by rw [hg1eq]; exact List.mem_cons_self _ _)
  have hc2 : isPySpace c2 = false := hg2s c2 (by rw [hg2eq]; exact List.mem_cons_self _ _)
  have e2 : (' ' :: (g1 ++ ' ' :: (g2 ++ ['=']))).dropWhile isPySpace =
      g1 ++ ' ' :: (g2 ++ ['=']) := by
    simp only [List.dropWhile_cons]
    rw [if_pos (by rfl), hg1eq]
    simp [List.dropWhile_cons, hc1]
  have e3 : (g1 ++ ' ' :: (g2 ++ ['='])).takeWhile (fun c => !isPySpace c) = g1 := by
    rw [takeWhile_append_all _ _ _ hg1ns]
    simp [List.takeWhile_cons, isPySpace]
  have e4 : (g1 ++ ' ' :: (g2 ++ ['='])).dropWhile (fun c => !isPySpace c) =
      ' ' :: (g2 ++ ['=']) := by
    rw [dropWhile_append_all _ _ _ hg1ns]
    simp [List.dropWhile_cons, isPySpace]
  have e6 : (' ' :: (g2 ++ ['='])).dropWhile isPySpace = g2 ++ ['='] := by
    simp only [List.dropWhile_cons]
    rw [if_pos (by rfl), hg2eq]
    simp [List.dropWhile_cons, hc2]
  have e7 : (g2 ++ ['=']).takeWhile (fun c => !isPySpace c) = g2 ++ ['='] := by
    rw [takeWhile_append_all _ _ _ hg2ns]
    rfl
  have escan : scanEq headNonNewline ((g2 ++ ['=']).dropWhile (fun c => !isPySpace c)) []
      ((g2 ++ ['=']).reverse) = none := by
    have hrev : (g2 ++ ['=']).reverse = '=' :: g2.reverse := by simp
    rw [hrev]
    show scanEq headNonNewline _ [] ('=' :: g2.reverse) = none
    rw [show scanEq headNonNewline ((g2 ++ ['=']).dropWhile (fun c => !isPySpace c)) []
        ('=' :: g2.reverse) =
      scanEq headNonNewline ((g2 ++ ['=']).dropWhile (fun c => !isPySpace c))
        ('=' :: []) g2.reverse from ?_]
    · exact scanEq_none _ _ _ _ (by simp [hg2e])
    · have hdrop : (g2 ++ ['=']).dropWhile (fun c => !isPySpace c) = [] := by
        rw [dropWhile_append_all _ _ _ hg2ns]
        rfl
      simp [scanEq, headNonNewline, hdrop]
  unfold matchEventTail
  rw [show (' ' :: (g1 ++ ' ' :: (g2 ++ ['=']))).takeWhile isPySpace =
      ' ' :: (g1 ++ ' ' :: (g2 ++ ['='])).takeWhile isPySpace from by
    simp [List.takeWhile_cons]; rfl]
  simp only [List.isEmpty_cons, Bool.false_eq_true, if_false]
  rw [e2, e3]
  rw [show g1.isEmpty = false from by rw [hg1eq]; rfl]
  simp only [Bool.false_eq_true, if_false]
  rw [e4]
  rw [show (' ' :: (g2 ++ ['='])).takeWhile isPySpace =
      ' ' :: (g2 ++ ['=']).takeWhile isPySpace from by
    simp [List.takeWhile_cons]; rfl]
  simp only [List.isEmpty_cons, Bool.false_eq_true, if_false]
  rw [e6, e7, escan]

theorem parseEventLine_complete (kwl : List Char) (k0 : Char) (kr : List Char)
    (hkw : kwl = k0 :: kr) (hk0 : isPySpace k0 = false)
    (g1 g2 vl : List Char)
    (hg1 : g1 ≠ []) (hg1s : ∀ c ∈ g1, isPySpace c = false)
    (hg2 : g2 ≠ []) (hg2s : ∀ c ∈ g2, isPySpace c = false)
    (hg2e : '=' ∉ g2) (hve : '=' ∉ vl) (hvn : '\n' ∉ vl)
    (hvh : ∃ c vt, vl = c :: vt ∧ isPySpace c = false) :
    matchAfterKeyword kwl headNonNewline
      (pyStripL (kwl ++ ' ' :: (g1 ++ ' ' :: (g2 ++ '=' :: vl)))) =
      some (g1, g2, rstripL vl) := by
  obtain ⟨cv, vt, hvleq, hcv⟩ := hvh
  have hsplit : kwl ++ ' ' :: (g1 ++ ' ' :: (g2 ++ '=' :: vl)) =
      (kwl ++ ' ' :: (g1 ++ ' ' :: (g2 ++ ['=']))) ++ vl := by
    simp
  rw [hsplit]
  rw [pyStripL_concat (kwl ++ ' ' :: (g1 ++ ' ' :: (g2 ++ ['=']))) vl
    ⟨k0, kr ++ ' ' :: (g1 ++ ' ' :: (g2 ++ ['='])), by rw [hkw]; rfl, hk0⟩
    ⟨'=', ((kwl ++ [' '] ++ g1 ++ [' ']) ++ g2).reverse, by simp, by decide⟩]
  have hregroup : (kwl ++ ' ' :: (g1 ++ ' ' :: (g2 ++ ['=']))) ++ rstripL vl =
      kwl ++ (' ' :: (g1 ++ ' ' :: (g2 ++ '=' :: rstripL vl))) := by
    simp
  rw [hregroup]
  unfold matchAfterKeyword
  rw [dropPrefixQ_append]
  obtain ⟨rest, hw⟩ := rstripL_cons_head cv vt hcv
  rw [← hvleq] at hw
  refine matchEventTail_complete headNonNewline g1 g2 (rstripL vl)
    hg1 hg1s hg2 hg2s hg2e ?_ ?_ ?_
  · intro hm
    exact hve (rstripL_subset vl '=' hm)
  · intro hm
    exact hvn (rstripL_subset vl '\n' hm)
  · rw [hw]
    have hcvn : ¬(cv = '\n') := by
      intro he
      rw [he] at hcv
      exact absurd hcv (by decide)
    simp [headNonNewline, hcvn]

theorem parseEventLine_empty (kwl : List Char) (k0 : Char) (kr : List Char)
    (hkw : kwl = k0 :: kr) (hk0 : isPySpace k0 = false)
    (g1 g2 : List Char)
    (hg1 : g1 ≠ []) (hg1s : ∀ c ∈ g1, isPySpace c = false)
    (hg2 : g2 ≠ []) (hg2s : ∀ c ∈ g2, isPySpace c = false)
    (hg2e : '=' ∉ g2) :
    matchAfterKeyword kwl headNonNewline
      (pyStripL (kwl ++ ' ' :: (g1 ++ ' ' :: (g2 ++ ['='])))) = none := by
  have hPA : pyStripL (kwl ++ ' ' :: (g1 ++ ' ' :: (g2 ++ ['=']))) =
      kwl ++ ' ' :: (g1 ++ ' ' :: (g2 ++ ['='])) := by
    have hc := pyStripL_concat (kwl ++ ' ' :: (g1 ++ ' ' :: (g2 ++ ['=']))) []
      ⟨k0, kr ++ ' ' :: (g1 ++ ' ' :: (g2 ++ ['='])), by rw [hkw]; rfl, hk0⟩
      ⟨'=', ((kwl ++ [' '] ++ g1 ++ [' ']) ++ g2).reverse, by simp, by decide⟩
    simpa [rstripL] using hc
  rw [hPA]
  have hregroup : kwl ++ ' ' :: (g1 ++ ' ' :: (g2 ++ ['='])) =
      kwl ++ (' ' :: (g1 ++ ' ' :: (g2 ++ ['=']))) := rfl
  unfold matchAfterKeyword
  rw [dropPrefixQ_append]
  exact matchEventTail_empty_value g1 g2 hg1 hg1s hg2 hg2s hg2e

theorem matchAfterKeyword_no_eq (kwl : List Char) (ok : List Char → Bool)
    (cs : List Char) (h : '=' ∉ cs) : matchAfterKeyword kwl ok cs = none := by
  unfold matchAfterKeyword
  cases hd : dropPrefixQ kwl cs with
  | none => rfl
  | some rest =>
    have hrest : '=' ∉ rest := fun hm => h (dropPrefixQ_mem kwl cs rest hd '=' hm)
    exact matchEventTail_no_eq ok rest hrest

theorem dropWhile_idem (p : Char → Bool) (l : List Char) :
    (l.dropWhile p).dropWhile p = l.dropWhile p := by
  induction l with
  | nil => rfl
  | cons c l ih => by_cases hc : p c <;> simp [List.dropWhile_cons, hc, ih]

theorem rstripL_idem (l : List Char) : rstripL (rstripL l) = rstripL l := by
  unfold rstripL
  rw [List.reverse_reverse, dropWhile_idem]

theorem pyStrip_rstripL (v : String)
    (hvh : ∃ c vt, v.toList = c :: vt ∧ isPySpace c = false) :
    pyStrip ⟨rstripL v.toList⟩ = pyStrip v := by
  obtain ⟨c, vt, hv, hc⟩ := hvh
  unfold pyStrip
  congr 1
  have hps : ∀ l : List Char, pyStripL l = rstripL (l.dropWhile isPySpace) :=
    fun l => rfl
  rw [hps, hps]
  obtain ⟨rest, hwr⟩ := rstripL_cons_head c vt hc
  show rstripL ((rstripL v.toList).dropWhile isPySpace) =
    rstripL (v.toList.dropWhile isPySpace)
  rw [hv, hwr]
  rw [show (c :: rest).dropWhile isPySpace = c :: rest from by
    simp [List.dropWhile_cons, hc]]
  rw [show (c :: vt).dropWhile isPySpace = c :: vt from by
    simp [List.dropWhile_cons, hc]]
  rw [← hwr, rstripL_idem]

/-- C2: at every point in any sequence of MCS client operations the
cached `_current_instance` equals the ghost value "name passed to the
most recent `set_instance` call that returned without error" — in
particular it is null when there was no such call (first conjunct); and
whenever a `reconnect` completes without error while an instance is
cached, `SetInstance <cached>` is among the wire writes of the
reconnect itself, and the full run's wire trace is the trace before the
reconnect, then the reconnect's own writes, then everything later — so
the replay reaches the device before the next caller command (second
conjunct). -/
theorem c2_instance_cache_and_replay :
    (∀ (host : String) (ops : List MCSOp),
      (mcsRun host mcsStart ops).1.currentInstance =
        (mcsRun host mcsStart ops).2.1) ∧
    (∀ (host : String) (pre post : List MCSOp) (ok : Bool)
      (o1 o2 : AttemptOutcome) (i : String),
      (mcsRun host mcsStart pre).1.currentInstance = some i →
      (mcsStep host (mcsRun host mcsStart pre).1 (mcsRun host mcsStart pre).2.1
        (.reconn ok o1 o2)).2.2.2 = false →
      (∃ msg ∈ (mcsStep host (mcsRun host mcsStart pre).1
          (mcsRun host mcsStart pre).2.1 (.reconn ok o1 o2)).2.2.1,
        wireBytes msg = "SetInstance " ++ i) ∧
      (∃ t : List MCSWrite,
        (mcsRun host mcsStart (pre ++ .reconn ok o1 o2 :: post)).2.2 =
          (mcsRun host mcsStart pre).2.2 ++
            (mcsStep host (mcsRun host mcsStart pre).1
              (mcsRun host mcsStart pre).2.1 (.reconn ok o1 o2)).2.2.1 ++ t)) := by
  constructor
  · intro host ops
    exact mcsRun_inv_aux host ops ⟨false, none⟩ none [] rfl
  · intro host pre post ok o1 o2 i hci herr
    obtain ⟨hok, hwr⟩ := mcsStep_reconn_ok host _ _ ok o1 o2 herr
    constructor
    · rw [hwr]
      exact mcsReconnect_replays host _ ok o1 o2 i hci hok
    · rw [mcsRun_append host pre (.reconn ok o1 o2 :: post) mcsStart]
      rcases hrun : mcsRun host mcsStart pre with ⟨st, g, w⟩
      simp only [mcsRun]
      obtain ⟨t, ht⟩ := mcsRun_trace_prefix host post
        (mcsStep host st g (.reconn ok o1 o2)).1
        (mcsStep host st g (.reconn ok o1 o2)).2.1
        (w ++ (mcsStep host st g (.reconn ok o1 o2)).2.2.1)
      exact ⟨t, ht⟩

/-- Closed instantiation of `c2_instance_cache_and_replay`: after a
successful `set_instance`, a successful reconnect replays the cached
instance before any later traffic. -/
theorem c2_witness :
    ((mcsRun "10.0.0.45" mcsStart
        [.setInst "Music_Server_A" .succeeds .succeeds]).1.currentInstance =
      (mcsRun "10.0.0.45" mcsStart
        [.setInst "Music_Server_A" .succeeds .succeeds]).2.1) ∧
    ((∃ msg ∈ (mcsStep "10.0.0.45"
        (mcsRun "10.0.0.45" mcsStart [.setInst "Music_Server_A" .succeeds .succeeds]).1
        (mcsRun "10.0.0.45" mcsStart [.setInst "Music_Server_A" .succeeds .succeeds]).2.1
        (.reconn true .succeeds .succeeds)).2.2.1,
      wireBytes msg = "SetInstance " ++ "Music_Server_A") ∧
    (∃ t : List MCSWrite,
      (mcsRun "10.0.0.45" mcsStart
        ([.setInst "Music_Server_A" .succeeds .succeeds] ++
          .reconn true .succeeds .succeeds ::
            [.cmd "BrowseAlbums" .succeeds .succeeds])).2.2 =
        (mcsRun "10.0.0.45" mcsStart
          [.setInst "Music_Server_A" .succeeds .succeeds]).2.2 ++
          (mcsStep "10.0.0.45"
            (mcsRun "10.0.0.45" mcsStart
              [.setInst "Music_Server_A" .succeeds .succeeds]).1
            (mcsRun "10.0.0.45" mcsStart
              [.setInst "Music_Server_A" .succeeds .succeeds]).2.1
            (.reconn true .succeeds .succeeds)).2.2.1 ++ t)) :=
  ⟨c2_instance_cache_and_replay.1 "10.0.0.45"
      [.setInst "Music_Server_A" .succeeds .succeeds],
   c2_instance_cache_and_replay.2 "10.0.0.45"
      [.setInst "Music_Server_A" .succeeds .succeeds]
      [.cmd "BrowseAlbums" .succeeds .succeeds]
      true .succeeds .succeeds "Music_Server_A" (by decide) (by decide)⟩

/-- C5 counterexample: the claim's regex
`^(ReportState|StateChanged)\s+(\S+)\s+(\S+)=(.*)$` matches a line with
an empty value part and the claim says the parser returns the captured
record; the code compiles its pattern with `(.+)` (protocol.py 136,
161), so `parse_state_changed` returns `None` on that line. -/
theorem c5_counterexample :
    specEventRegex "StateChanged Zone_1 Volume=" =
      some ("StateChanged", "Zone_1", "Volume", "") ∧
    parse_state_changed "StateChanged Zone_1 Volume=" = none := by
  refine ⟨by decide, by decide⟩

/-- C5 amended: the parsers strip the line and then match
`(StateChanged|ReportState)\s+(\S+)\s+(\S+)=(.+)` as a prefix, with a
NONEMPTY value part: for target and property groups (nonempty, no
whitespace, no `=` in the property) and a value beginning with a
non-whitespace character and containing no `=` and no newline, the
parsed record carries exactly the captured groups with the value
stripped of surrounding whitespace (first conjunct); a line whose value
part is empty parses to `None` (second conjunct); and a line containing
no `=` at all parses to `None` (third conjunct). -/
theorem c5_event_line_parsers :
    (∀ g1 g2 v : String,
      g1.toList ≠ [] → (∀ c ∈ g1.toList, isPySpace c = false) →
      g2.toList ≠ [] → (∀ c ∈ g2.toList, isPySpace c = false) →
      '=' ∉ g2.toList → '=' ∉ v.toList → '\n' ∉ v.toList →
      (∃ c vt, v.toList = c :: vt ∧ isPySpace c = false) →
      parse_state_changed ("StateChanged " ++ g1 ++ " " ++ g2 ++ "=" ++ v) =
        some (g1, g2, pyStrip v) ∧
      parse_report_state ("ReportState " ++ g1 ++ " " ++ g2 ++ "=" ++ v) =
        some (g1, g2, pyStrip v)) ∧
    (∀ g1 g2 : String,
      g1.toList ≠ [] → (∀ c ∈ g1.toList, isPySpace c = false) →
      g2.toList ≠ [] → (∀ c ∈ g2.toList, isPySpace c = false) →
      '=' ∉ g2.toList →
      parse_state_changed ("StateChanged " ++ g1 ++ " " ++ g2 ++ "=") = none ∧
      parse_report_state ("ReportState " ++ g1 ++ " " ++ g2 ++ "=") = none) ∧
    (∀ line : String, '=' ∉ line.toList →
      parse_state_changed line = none ∧ parse_report_state line = none) := by
  refine ⟨?_, ?_, ?_⟩
  · intro g1 g2 v hg1 hg1s hg2 hg2s hg2e hve hvn hvh
    have hkwS : "StateChanged ".toList = "StateChanged".toList ++ [' '] := rfl
    have hkwR : "ReportState ".toList = "ReportState".toList ++ [' '] := rfl
    have hlistS : ("StateChanged " ++ g1 ++ " " ++ g2 ++ "=" ++ v).toList =
        "StateChanged".toList ++
          ' ' :: (g1.toList ++ ' ' :: (g2.toList ++ '=' :: v.toList)) := by
      simp [hkwS]
    have hlistR : ("ReportState " ++ g1 ++ " " ++ g2 ++ "=" ++ v).toList =
        "ReportState".toList ++
          ' ' :: (g1.toList ++ ' ' :: (g2.toList ++ '=' :: v.toList)) := by
      simp [hkwR]
    constructor
    · unfold parse_state_changed
      rw [hlistS, parseEventLine_complete "StateChanged".toList 'S'
        "tateChanged".toList rfl (by decide) g1.toList g2.toList v.toList
        hg1 hg1s hg2 hg2s hg2e hve hvn hvh]
      show some ((⟨g1.toList⟩ : String), (⟨g2.toList⟩ : String),
        pyStrip ⟨rstripL v.toList⟩) = some (g1, g2, pyStrip v)
      rw [pyStrip_rstripL v hvh]
      rfl
    · unfold parse_report_state
      rw [hlistR, parseEventLine_complete "ReportState".toList 'R'
        "eportState".toList rfl (by decide) g1.toList g2.toList v.toList
        hg1 hg1s hg2 hg2s hg2e hve hvn hvh]
      show some ((⟨g1.toList⟩ : String), (⟨g2.toList⟩ : String),
        pyStrip ⟨rstripL v.toList⟩) = some (g1, g2, pyStrip v)
      rw [pyStrip_rstripL v hvh]
      rfl
  · intro g1 g2 hg1 hg1s hg2 hg2s hg2e
    have hkwS : "StateChanged ".toList = "StateChanged".toList ++ [' '] := rfl
    have hkwR : "ReportState ".toList = "ReportState".toList ++ [' '] := rfl
    have hlistS : ("StateChanged " ++ g1 ++ " " ++ g2 ++ "=").toList =
        "StateChanged".toList ++ ' ' :: (g1.toList ++ ' ' :: (g2.toList ++ ['='])) := by
      simp [hkwS]
    have hlistR : ("ReportState " ++ g1 ++ " " ++ g2 ++ "=").toList =
        "ReportState".toList ++ ' ' :: (g1.toList ++ ' ' :: (g2.toList ++ ['='])) := by
      simp [hkwR]
    constructor
    · unfold parse_state_changed
      rw [hlistS, parseEventLine_empty "StateChanged".toList 'S'
        "tateChanged".toList rfl (by decide) g1.toList g2.toList
        hg1 hg1s hg2 hg2s hg2e]
    · unfold parse_report_state
      rw [hlistR, parseEventLine_empty "ReportState".toList 'R'
        "eportState".toList rfl (by decide) g1.toList g2.toList
        hg1 hg1s hg2 hg2s hg2e]
  · intro line h
    have hsub : '=' ∉ pyStripL line.toList :=
      fun hm => h (pyStripL_subset line.toList '=' hm)
    constructor
    · unfold parse_state_changed
      rw [matchAfterKeyword_no_eq _ _ _ hsub]
    · unfold parse_report_state
      rw [matchAfterKeyword_no_eq _ _ _ hsub]

/-- Closed instantiation of `c5_event_line_parsers`. -/
theorem c5_witness :
    (parse_state_changed ("StateChanged " ++ "Zone_2" ++ " " ++ "Volume" ++ "=" ++ "37") =
      some ("Zone_2", "Volume", pyStrip "37") ∧
     parse_report_state ("ReportState " ++ "Zone_2" ++ " " ++ "Volume" ++ "=" ++ "37") =
      some ("Zone_2", "Volume", pyStrip "37")) ∧
    (parse_state_changed ("StateChanged " ++ "Zone_2" ++ " " ++ "Volume" ++ "=") = none ∧
     parse_report_state ("ReportState " ++ "Zone_2" ++ " " ++ "Volume" ++ "=") = none) ∧
    (parse_state_changed "BrowseZones" = none ∧
     parse_report_state "BrowseZones" = none) :=
  ⟨c5_event_line_parsers.1 "Zone_2" "Volume" "37" (by decide) (by decide)
      (by decide) (by decide) (by decide) (by decide) (by decide)
      ⟨'3', ['7'], rfl, by decide⟩,
   c5_event_line_parsers.2.1 "Zone_2" "Volume" (by decide) (by decide)
      (by decide) (by decide) (by decide),
   c5_event_line_parsers.2.2 "BrowseZones" (by decide)⟩

/-- C10: the MCS response read stops, returning the collected lines,
exactly when a received line contains `=Done`, `Ok` or `</` anywhere
within it (first conjunct: the first such line ends the read and the
rest of the input is left unread), or once more than 100 lines have
been collected (second conjunct: the 101st collected line ends the
read); with neither condition the whole input is consumed (third
conjunct).  Consequently a reply line merely containing `Ok` inside
other text — here a station title — terminates the response early with
the remaining lines unread (fourth conjunct). -/
theorem c10_mcs_read_stop_conditions :
    (∀ (pre : List String) (t : String) (rest : List String),
      (∀ x ∈ pre, mcsStopText (pyStrip x) = false) →
      ((pre.map pyStrip).filter (fun s => s ≠ "")).length ≤ 100 →
      mcsStopText (pyStrip t) = true →
      mcsReadResponse (pre ++ t :: rest) =
        (pre.map pyStrip).filter (fun s => s ≠ "") ++ [pyStrip t]) ∧
    (∀ (pre : List String) (t : String) (rest : List String),
      (∀ x ∈ pre, mcsStopText (pyStrip x) = false) →
      ((pre.map pyStrip).filter (fun s => s ≠ "")).length = 100 →
      mcsStopText (pyStrip t) = false → pyStrip t ≠ "" →
      mcsReadResponse (pre ++ t :: rest) =
        (pre.map pyStrip).filter (fun s => s ≠ "") ++ [pyStrip t]) ∧
    (∀ lines : List String,
      (∀ x ∈ lines, mcsStopText (pyStrip x) = false) →
      ((lines.map pyStrip).filter (fun s => s ≠ "")).length ≤ 100 →
      mcsReadResponse lines = (lines.map pyStrip).filter (fun s => s ≠ "")) ∧
    mcsReadResponse ["Station Okeechobee FM", "ReportState Instance PlayState=Playing"] =
      ["Station Okeechobee FM"] := by
  refine ⟨?_, ?_, ?_, by decide⟩
  · intro pre t rest h hl hm
    unfold mcsReadResponse
    rw [mcsReadAux_clean pre [] (t :: rest) h (by simpa using hl)]
    rw [mcsReadAux_stop _ t rest hm]
    simp
  · intro pre t rest h hl hm hne
    unfold mcsReadResponse
    rw [mcsReadAux_clean pre [] (t :: rest) h (by simpa using hl.le)]
    rw [mcsReadAux_bound _ t rest hm hne (by simpa using hl)]
    simp
  · intro lines h hl
    unfold mcsReadResponse
    have := mcsReadAux_clean lines [] [] h (by simpa using hl)
    simp only [List.append_nil] at this
    rw [this]
    simp [mcsReadAux]

/-- Closed instantiation of `c10_mcs_read_stop_conditions`: a reply
whose second line contains `=Done` is cut there; a marker-free reply is
returned whole. -/
theorem c10_witness :
    mcsReadResponse ["<RadioStations total=3", "BrowseRadioStations=Done", "Extra"] =
      ["<RadioStations total=3", "BrowseRadioStations=Done"] ∧
    mcsReadResponse ["StateChanged A B=1", "StateChanged A B=2"] =
      ["StateChanged A B=1", "StateChanged A B=2"] :=
  ⟨c10_mcs_read_stop_conditions.1 ["<RadioStations total=3"]
      "BrowseRadioStations=Done" ["Extra"] (by decide) (by decide) (by decide),
   c10_mcs_read_stop_conditions.2.2.1 ["StateChanged A B=1", "StateChanged A B=2"]
      (by decide) (by decide)⟩

/-- C3 counterexample: the claim says the command is replayed if and
only if the first attempt fails with a connection-class error.  The
`except` tuple of `_execute_command` ends with `Exception`, so a
non-connection-class error also triggers the reconnect-and-replay path:
here the first attempt fails with a plain `Exception`, yet the command
is written twice and the call returns without error. -/
theorem c3_counterexample :
    isConnectionClass .otherExc = false ∧
    (execCommand "10.0.0.45" ⟨true, none⟩ "BrowseAlbums" true
        (.failsAfter .otherExc) .succeeds).2.1 = none ∧
    (execCommand "10.0.0.45" ⟨true, none⟩ "BrowseAlbums" true
        (.failsAfter .otherExc) .succeeds).2.2.count (.command "BrowseAlbums") = 2 := by
  refine ⟨rfl, rfl, by decide⟩

/-- C3 amended: the retry clause catches every `Exception`, so a failing
first attempt — whatever the error kind, connection-class or not —
triggers the close/reconnect/replay path exactly once; a successful
first attempt writes the command exactly once; when the first attempt
fails, the call's outcome is exactly the retry's outcome (a second
failure propagates); and no command is ever written more than twice. -/
theorem c3_retry_on_any_caught_error :
    (∀ e : PyErr, caughtByRetryClause e = true) ∧
    (∀ (host : String) (st : MCSState) (cmd : String) (o1 o2 : AttemptOutcome),
      (attemptError o1 = none →
        (execCommand host st cmd true o1 o2).2.1 = none ∧
        (execCommand host st cmd true o1 o2).2.2.count (.command cmd) = 1) ∧
      (∀ e, attemptError o1 = some e →
        (execCommand host st cmd true o1 o2).2.1 = attemptError o2) ∧
      (execCommand host st cmd true o1 o2).2.2.count (.command cmd) ≤ 2) := by
  refine ⟨fun e => rfl, ?_⟩
  intro host st cmd o1 o2
  cases o1 <;> cases o2 <;> by_cases hc : st.connected <;>
    cases hinst : st.currentInstance <;>
      simp_all [execCommand, attemptError, List.count_append, List.count_cons,
        count_command_initWrites]

/-- Closed instantiation of `c3_retry_on_any_caught_error`. -/
theorem c3_witness :
    (execCommand "10.0.0.45" ⟨true, some "Music_Server_A"⟩ "GetStatus" true
        .succeeds .succeeds).2.1 = none ∧
    (execCommand "10.0.0.45" ⟨true, some "Music_Server_A"⟩ "GetStatus" true
        .succeeds .succeeds).2.2.count (.command "GetStatus") = 1 ∧
    (execCommand "10.0.0.45" ⟨true, some "Music_Server_A"⟩ "GetStatus" true
        (.failsAfter .connReset) (.failsAfter .timeoutErr)).2.1 = some .timeoutErr ∧
    (execCommand "10.0.0.45" ⟨true, some "Music_Server_A"⟩ "GetStatus" true
        (.failsAfter .connReset) (.failsAfter .timeoutErr)).2.2.count
      (.command "GetStatus") ≤ 2 := by
  have h := c3_retry_on_any_caught_error.2 "10.0.0.45" ⟨true, some "Music_Server_A"⟩
    "GetStatus" .succeeds .succeeds
  have h2 := c3_retry_on_any_caught_error.2 "10.0.0.45" ⟨true, some "Music_Server_A"⟩
    "GetStatus" (.failsAfter .connReset) (.failsAfter .timeoutErr)
  exact ⟨(h.1 rfl).1, (h.1 rfl).2, h2.2.1 .connReset rfl, h2.2.2⟩

/-- C6 counterexample: the claim says the command mutex is held from the
`BrowseZones` write until the `GetStatus` reply has been read.  In
`get_zones` the two exchanges are two separate `_execute_command` calls,
each its own `async with self._command_lock` block, so the mutex is
released (and re-acquired) between them: on a run whose `BrowseZones`
reply carries the `<Zones` root, a release occurs inside the claimed
critical section. -/
theorem c6_counterexample :
    get_zones_trace (fun c => if c = "BrowseZones" then ["<Zones/>"] else ["Ok"]) =
      [.acq, .write "BrowseZones", .readReply "BrowseZones", .rel,
       .acq, .write "GetStatus", .readReply "GetStatus", .rel] ∧
    mutexHeldAcross
      (get_zones_trace (fun c => if c = "BrowseZones" then ["<Zones/>"] else ["Ok"])) =
      false := by
  refine ⟨by decide, by decide⟩

/-- C6 amended: `get_zones` performs the `BrowseZones` exchange and the
`GetStatus` exchange as two separate critical sections of the command
mutex: each write and each reply read happens with the mutex held, but
the mutex is released after the `BrowseZones` reply and re-acquired for
`GetStatus`, so another command's write may interleave between the two
exchanges. -/
theorem c6_get_zones_lock_sections (replies : String → List String)
    (h : containsSub (String.join (replies "BrowseZones")) "<Zones" = true) :
    get_zones_trace replies =
      execCommandTrace "BrowseZones" ++ execCommandTrace "GetStatus" ∧
    underMutex (get_zones_trace replies) = true ∧
    mutexHeldAcross (get_zones_trace replies) = false := by
  have ht : get_zones_trace replies =
      execCommandTrace "BrowseZones" ++ execCommandTrace "GetStatus" := by
    unfold get_zones_trace getZonesAttempts
    simp [h]
  refine ⟨ht, ?_, ?_⟩ <;> rw [ht] <;> decide

/-- Closed instantiation of `c6_get_zones_lock_sections`. -/
theorem c6_witness :
    get_zones_trace (fun _ => ["<Zones/>"]) =
      execCommandTrace "BrowseZones" ++ execCommandTrace "GetStatus" ∧
    underMutex (get_zones_trace (fun _ => ["<Zones/>"])) = true ∧
    mutexHeldAcross (get_zones_trace (fun _ => ["<Zones/>"])) = false :=
  c6_get_zones_lock_sections (fun _ => ["<Zones/>"]) (by decide)

/-- C9 counterexample: the claim says the counting semaphore bounding
concurrent host probes defaults to 100; the `max_concurrent` default of
`discover_devices` (discovery.py 136) is 50. -/
theorem c9_counterexample :
    discoverDefaultMaxConcurrent = 50 ∧ discoverDefaultMaxConcurrent ≠ 100 := by
  decide

/-- C9 amended: discovery over an IPv4 CIDR probes every host address of
the network on both ports (5006 and 5004) with a 500 ms connect
timeout, concurrency is bounded by a counting semaphore whose default
bound is 50 (not 100), and exactly the hosts with at least one of the
two ports open yield a `DiscoveredDevice` record, in host order. -/
theorem c9_discovery_probes_and_results (openPort : Nat → Nat → Bool)
    (probeConn : Nat → Bool) (banner hostname : Nat → Option String)
    (addr p mc : Nat) :
    (discover_devices openPort probeConn banner hostname addr p mc).2 =
      ((hostsOfNetwork addr p).map
        (fun ip => [ProbeRec.mk ip 5006 500, ProbeRec.mk ip 5004 500])).flatten ∧
    (discover_devices openPort probeConn banner hostname addr p mc).1 =
      ((hostsOfNetwork addr p).filter
        (fun ip => openPort ip 5006 || openPort ip 5004)).map
        (fun ip => ⟨ip, hostname ip, 5006, 5004, openPort ip 5006, openPort ip 5004,
          if openPort ip 5006 then probe_mrad_port (probeConn ip) (banner ip)
          else none⟩) := by
  have scan_device_eq : ∀ ip : Nat,
      scan_device openPort probeConn banner hostname ip =
        ((if openPort ip 5006 || openPort ip 5004 then
            some ⟨ip, hostname ip, 5006, 5004, openPort ip 5006, openPort ip 5004,
              if openPort ip 5006 then probe_mrad_port (probeConn ip) (banner ip)
              else none⟩
          else none),
         [ProbeRec.mk ip 5006 500, ProbeRec.mk ip 5004 500]) := by
    intro ip
    unfold scan_device
    by_cases h : openPort ip 5006 || openPort ip 5004 <;> simp [h]
  unfold discover_devices
  constructor
  · induction hostsOfNetwork addr p with
    | nil => rfl
    | cons ip rest ih =>
      simp only [List.map_cons, List.map_map, List.flatten_cons] at ih ⊢
      rw [scan_device_eq]
      simp [ih]
  · induction hostsOfNetwork addr p with
    | nil => rfl
    | cons ip rest ih =>
      simp only [List.map_cons, List.filterMap_cons, List.filter_cons] at ih ⊢
      rw [scan_device_eq]
      by_cases hcond : openPort ip 5006 || openPort ip 5004 <;>
        simp [hcond, ih]

end NuVo
